import Mathlib

/-!
# Group expense tracking — verification of the ledger and settlement engine

Shallow embedding of the Express/Mongo handlers in `server.js` of the
Group_Expense_Tracking repository.  The mutable MongoDB state (the `User` and
`Group` collections) is modelled as explicit lists; each HTTP handler becomes a
pure function from a `State` and its request parameters to `Except ApiErr State`
(an `.error` result corresponds to a handler that responds with an error status
before persisting any write — every error path in the handlers returns before
`save()` / `updateOne` is reached).

JavaScript truthiness on the validated request fields is modelled for strings
as "≠ empty string" and for numbers as "≠ 0" (`if (!owedBy || !amount) continue`).
Mongo's `findOne` / `updateOne` act on the first matching document, modelled by
`List.find?` and `updateFirst`.  Monetary amounts are modelled as `Int` and the
`Date` values serialized with `toISOString()` as `String` (the handlers only
ever compare them for equality, except the spec's ordering requirement, for
which ISO-8601 strings compare lexicographically like the dates they denote).
-/

namespace GroupExpense

/-- A transaction embedded in `groupSchema.events.transactions` (server.js:57-64):
owedBy, owedTo, reason, amount, timestamp and isPaid are the only declared
paths.  In particular there is NO `receipt` path: the upload handler's
`txn.receipt = ...` assignment (server.js:289) targets a path outside the
sub-schema and is discarded by Mongoose strict mode when the document is
saved, so the persisted store never holds a receipt reference. -/
structure Txn where
  owedBy : String
  owedTo : String
  reason : String
  amount : Int
  timestamp : String
  isPaid : Bool
deriving Repr, DecidableEq

/-- An event embedded in `groupSchema.events` (server.js:52-65); `createdAt = ""`
models an absent creation date. -/
structure Event where
  eventName : String
  description : String
  createdAt : String := ""
  transactions : List Txn
deriving Repr, DecidableEq

/-- A document of the `Group` collection (server.js:47-66). -/
structure Group where
  groupId : String
  groupName : String
  createdBy : String
  members : List String
  events : List Event
deriving Repr, DecidableEq

/-- A document of the `User` collection (server.js:26-45), restricted to the
fields the modelled handlers read or write. -/
structure User where
  userId : String
  debt : Int
  groups : List String
deriving Repr, DecidableEq

/-- The database state: the two collections, in insertion order. -/
structure State where
  users : List User
  groups : List Group
deriving Repr, DecidableEq

/-- Error responses of the handlers: 400, 404 and 500. -/
inductive ApiErr where
  | badRequest
  | notFound
  | serverError
deriving Repr, DecidableEq

/-- Model of Mongo `updateOne`: rewrite the first element satisfying `p`. -/
def updateFirst (p : α → Bool) (f : α → α) : List α → List α
  | [] => []
  | x :: xs => if p x then f x :: xs else x :: updateFirst p f xs

/-- `Group.findOne({groupId})`. -/
def findGroup (groups : List Group) (gid : String) : Option Group :=
  groups.find? (fun g => g.groupId == gid)

/-- `User.updateOne({userId: uid}, {$inc: {debt: d}})`. -/
def incDebt (users : List User) (uid : String) (d : Int) : List User :=
  updateFirst (fun u => u.userId == uid) (fun u => { u with debt := u.debt + d }) users

/-- `User.updateMany({userId: {$in: members}}, {$push: {groups: gid}})`
(server.js:171-174). -/
def pushGroupId (users : List User) (members : List String) (gid : String) : List User :=
  users.map (fun u => if members.contains u.userId then { u with groups := u.groups ++ [gid] } else u)

/-- The debt-accrual loop shared by group creation and event addition
(server.js:176-183 and 205-212):
`if (!owedBy || !amount) continue; User.updateOne({userId: owedBy}, {$inc: {debt: amount}})`. -/
def accrueTxns (users : List User) (txns : List Txn) : List User :=
  txns.foldl
    (fun us t => if t.owedBy == "" || t.amount == 0 then us else incDebt us t.owedBy t.amount)
    users

/-- The outer accrual loop of `POST /api/groups` (server.js:175-184). -/
def accrueEvents (users : List User) (events : List Event) : List User :=
  events.foldl (fun us e => accrueTxns us e.transactions) users

/-- `POST /api/groups` (server.js:155-190).  `members`/`events` are `Option`s
because the handler checks `members` for presence explicitly (400) while a
missing `events` makes `events.map` throw, which the catch-block turns into a
500 — in both cases before any write.  `newGid` is the fresh `uuidv4()` and
`now` the `new Date()` stamped on each created event. -/
def createGroup (s : State) (newGid createdBy groupName : String)
    (members : Option (List String)) (events : Option (List Event)) (now : String) :
    Except ApiErr State :=
  if createdBy == "" || groupName == "" || members.isNone then
    .error .badRequest
  else
    match members, events with
    | some ms, some evs =>
        let g : Group :=
          { groupId := newGid, groupName := groupName, createdBy := createdBy,
            members := ms, events := evs.map (fun e => { e with createdAt := now }) }
        let users1 := pushGroupId s.users ms newGid
        .ok { users := accrueEvents users1 evs, groups := s.groups ++ [g] }
    | some _, none => .error .serverError
    | none, _ => .error .badRequest

/-- `POST /api/groups/:groupId/addEvent` (server.js:192-218).  No validation of
the event's transactions is performed; the event is appended verbatim (with
`createdAt` defaulted to `now` when absent) and the accrual loop runs. -/
def addEvent (s : State) (gid : String) (ev : Event) (now : String) :
    Except ApiErr State :=
  match findGroup s.groups gid with
  | none => .error .notFound
  | some _ =>
      let ev2 := if ev.createdAt == "" then { ev with createdAt := now } else ev
      .ok { users := accrueTxns s.users ev.transactions,
            groups := updateFirst (fun g => g.groupId == gid)
              (fun g => { g with events := g.events ++ [ev2] }) s.groups }

/-- The nested search-and-mutate loop shared by the receipt-upload and mark-paid
handlers, at the transaction level: scan the list, rewrite the first element
satisfying `p` with `f` and stop (`break`).  Returns the updated list together
with the matched element as it was before the rewrite. -/
def findAndSet (p : Txn → Bool) (f : Txn → Txn) : List Txn → Option (List Txn × Txn)
  | [] => none
  | t :: ts =>
      if p t then some (f t :: ts, t)
      else
        match findAndSet p f ts with
        | some (ts2, t0) => some (t :: ts2, t0)
        | none => none

/-- The event-level loop (server.js:281-296 and 323-343): every event whose
`eventName` matches is scanned in order; the first matching transaction is
rewritten and both loops break. -/
def updateInEvents (eventName : String) (p : Txn → Bool) (f : Txn → Txn) :
    List Event → Option (List Event × Txn)
  | [] => none
  | e :: es =>
      if e.eventName == eventName then
        match findAndSet p f e.transactions with
        | some (ts, t0) => some ({ e with transactions := ts } :: es, t0)
        | none =>
            match updateInEvents eventName p f es with
            | some (es2, t0) => some (e :: es2, t0)
            | none => none
      else
        match updateInEvents eventName p f es with
        | some (es2, t0) => some (e :: es2, t0)
        | none => none

/-- The transaction-key match of `POST /api/uploadReceiptOnly` (server.js:284-288):
timestamp, owedBy and owedTo — the paid flag is NOT consulted. -/
def receiptMatch (timestamp owedBy owedTo : String) (t : Txn) : Bool :=
  t.timestamp == timestamp && t.owedBy == owedBy && t.owedTo == owedTo

/-- `POST /api/uploadReceiptOnly` (server.js:267-308).  `receiptPath` is the
filename multer stored on disk.  The handler scans for a transaction matching
the key (never testing the paid flag), assigns `txn.receipt =
"/uploads/<filename>"` in memory and calls `group.save()` — but `receipt` is
not a path of the transactions sub-schema (server.js:57-64), so Mongoose
strict mode discards the assignment on save: the persisted rewrite of the
matched transaction is the identity, and a successful call changes no stored
data.  The search structure is kept because it decides 200 versus 404. -/
def uploadReceiptOnly (s : State) (gid eventName timestamp owedBy owedTo receiptPath : String) :
    Except ApiErr State :=
  if receiptPath == "" || gid == "" || eventName == "" || timestamp == ""
      || owedBy == "" || owedTo == "" then
    .error .badRequest
  else
    match findGroup s.groups gid with
    | none => .error .notFound
    | some g =>
        match updateInEvents eventName (receiptMatch timestamp owedBy owedTo)
            (fun t => t) g.events with
        | none => .error .notFound
        | some (evs, _) =>
            let groups2 :=
              updateFirst (fun gr => gr.groupId == gid) (fun gr => { gr with events := evs }) s.groups
            .ok { s with groups := groups2 }

/-- The transaction-key match of `POST /api/markTransactionPaid`
(server.js:326-331): timestamp, owedBy, owedTo and `!txn.isPaid`. -/
def paidMatch (timestamp owedBy owedTo : String) (t : Txn) : Bool :=
  t.timestamp == timestamp && t.owedBy == owedBy && t.owedTo == owedTo && !t.isPaid

/-- `POST /api/markTransactionPaid` (server.js:310-355).  On a match the flag is
set and `debt[owedBy]` is decremented by the matched transaction's amount.
`now` stands for the wall-clock instant of the request; the handler never reads
the clock, so it is unused — this is what makes the settlement timestamp of the
derived settlement records the transaction's original timestamp. -/
def markTransactionPaid (s : State) (gid eventName timestamp owedBy owedTo now : String) :
    Except ApiErr State :=
  if gid == "" || eventName == "" || timestamp == "" || owedBy == "" || owedTo == "" then
    .error .badRequest
  else
    match findGroup s.groups gid with
    | none => .error .notFound
    | some g =>
        match updateInEvents eventName (paidMatch timestamp owedBy owedTo)
            (fun t => { t with isPaid := true }) g.events with
        | none => .error .notFound
        | some (evs, t0) =>
            let groups2 :=
              updateFirst (fun gr => gr.groupId == gid) (fun gr => { gr with events := evs }) s.groups
            .ok { users := incDebt s.users owedBy (-t0.amount), groups := groups2 }

/-- `POST /api/groups/:groupId/updateMembers` (server.js:357-386): replace the
member list verbatim.  `none` models a request whose `members` is not an array. -/
def updateMembers (s : State) (gid : String) (members : Option (List String)) :
    Except ApiErr State :=
  match members with
  | none => .error .badRequest
  | some ms =>
      match findGroup s.groups gid with
      | none => .error .notFound
      | some _ =>
          let groups2 :=
            updateFirst (fun g => g.groupId == gid) (fun g => { g with members := ms }) s.groups
          .ok { s with groups := groups2 }

/-- An element of the response of `GET /api/transactions` (server.js:236-243). -/
structure SRecord where
  amount : Int
  owedBy : String
  owedTo : String
  reason : String
  currency : String
  paymentTimestamp : String
deriving Repr, DecidableEq

/-- The projection of a paid transaction into a settlement record
(server.js:236-243).  `group.currency` is not a field of the group schema, so
`group.currency || "INR"` is always `"INR"`; `paymentTimestamp` is the
transaction's own stored timestamp. -/
def txnRec (t : Txn) : SRecord :=
  { amount := t.amount, owedBy := t.owedBy, owedTo := t.owedTo, reason := t.reason,
    currency := "INR", paymentTimestamp := t.timestamp }

/-- `{owedBy: u} or {owedTo: u}`. -/
def txnInvolves (u : String) (t : Txn) : Bool :=
  t.owedBy == u || t.owedTo == u

/-- `GET /api/transactions` (server.js:220-250): the Mongo query keeps the
groups owning at least one matching paid transaction, then the nested `forEach`
pushes a record for every paid transaction involving the user, in storage
order.  No sorting is applied anywhere. -/
def getTransactions (s : State) (u : String) : List SRecord :=
  let allGroups := s.groups.filter (fun g =>
    g.events.any (fun e => e.transactions.any (fun t => txnInvolves u t && t.isPaid)))
  allGroups.foldl (fun acc g =>
    g.events.foldl (fun acc2 e =>
      e.transactions.foldl (fun acc3 t =>
        if t.isPaid && txnInvolves u t then acc3 ++ [txnRec t] else acc3) acc2) acc) []

/-- One client-visible operation of the modelled surface. -/
inductive Op where
  | createGroup (newGid createdBy groupName : String)
      (members : Option (List String)) (events : Option (List Event)) (now : String)
  | addEvent (gid : String) (ev : Event) (now : String)
  | uploadReceiptOnly (gid eventName timestamp owedBy owedTo receiptPath : String)
  | markTransactionPaid (gid eventName timestamp owedBy owedTo now : String)
  | updateMembers (gid : String) (members : Option (List String))

/-- Dispatch an operation to its handler. -/
def runOp (s : State) : Op → Except ApiErr State
  | .createGroup newGid createdBy groupName members events now =>
      createGroup s newGid createdBy groupName members events now
  | .addEvent gid ev now => addEvent s gid ev now
  | .uploadReceiptOnly gid en ts ob ot path => uploadReceiptOnly s gid en ts ob ot path
  | .markTransactionPaid gid en ts ob ot now => markTransactionPaid s gid en ts ob ot now
  | .updateMembers gid members => updateMembers s gid members

/-- The state after an operation: an error response leaves the store untouched
(every error path of the handlers returns before any write). -/
def applyOp (s : State) (op : Op) : State :=
  match runOp s op with
  | .ok s2 => s2
  | .error _ => s

/-- The state after a sequence of operations. -/
def applyOps (s : State) (ops : List Op) : State :=
  ops.foldl applyOp s

/-- The initial store: the users created at signup (debt defaults to 0,
server.js:41-44) and no groups. -/
def initState (ids : List String) : State :=
  { users := ids.map (fun i => { userId := i, debt := 0, groups := [] }), groups := [] }

/-- All transactions of the store, in storage order. -/
def allTxns (s : State) : List Txn :=
  (s.groups.map (fun g => (g.events.map (fun e => e.transactions)).flatten)).flatten

/-- The sum of the unpaid amounts owed by `uid` inside one transaction list. -/
def unpaidSumTxns (uid : String) (txns : List Txn) : Int :=
  ((txns.filter (fun t => t.owedBy == uid && !t.isPaid)).map (fun t => t.amount)).sum

/-- The sum of the unpaid amounts owed by `uid` — the right-hand side of the
spec's debt invariant I1. -/
def unpaidSum (s : State) (uid : String) : Int :=
  unpaidSumTxns uid (allTxns s)

/-- The stored debt of the (first) user with id `uid`, as a read of the
`User` collection would return it. -/
def findDebt (users : List User) (uid : String) : Option Int :=
  (users.find? (fun u => u.userId == uid)).map (fun u => u.debt)

/-- The stored debt scalar of `uid` in state `s`. -/
def getDebt (s : State) (uid : String) : Option Int :=
  findDebt s.users uid

/-- All settlement records derivable from the store: the projection of every
paid transaction, in storage order. -/
def allRecords (s : State) : List SRecord :=
  ((allTxns s).filter (fun t => t.isPaid)).map txnRec

/-- The increment a transaction list contributes to the debt of `uid` under the
accrual loop: transactions with an empty `owedBy` or a zero `amount` are
skipped; the paid flag is never consulted. -/
def accrualSum (uid : String) (txns : List Txn) : Int :=
  ((txns.filter (fun t => t.owedBy == uid && !(t.owedBy == "") && !(t.amount == 0))).map
    (fun t => t.amount)).sum

/-- Accrual contribution of a list of events. -/
def eventsAccrualSum (uid : String) (events : List Event) : Int :=
  (events.map (fun e => accrualSum uid e.transactions)).sum

/-- An operation whose submitted transactions are all unpaid, as the shipped
client always submits them (`isPaid: false` in make-group.html and group.html). -/
def submitsUnpaid : Op → Prop
  | .createGroup _ _ _ _ events _ =>
      ∀ e ∈ events.getD [], ∀ t ∈ e.transactions, t.isPaid = false
  | .addEvent _ ev _ => ∀ t ∈ ev.transactions, t.isPaid = false
  | _ => True

/-- The transaction sitting at position `ti` of event `ei` of group `gi`, when
all three indices are in range.  Appending groups, events or transactions never
disturbs these positions, which makes the index triple a stable identity for a
stored transaction. -/
def txnAt (s : State) (gi ei ti : Nat) : Option Txn :=
  s.groups[gi]?.bind (fun g => g.events[ei]?.bind (fun e => e.transactions[ti]?))

/-- All transactions of a group, in storage order. -/
def groupTxns (g : Group) : List Txn :=
  (g.events.map (fun e => e.transactions)).flatten

/-- The transactions the settlement handlers scan for a `(eventName, timestamp,
owedBy, owedTo)` key inside one group: the transactions of the events whose
name matches, in order. -/
def nameTxns (g : Group) (en : String) : List Txn :=
  ((g.events.filter (fun e => e.eventName == en)).map (fun e => e.transactions)).flatten

/-- The transactions of `g` matching a full transaction key, paid or not. -/
def keyTxns (g : Group) (en ts ob ot : String) : List Txn :=
  (nameTxns g en).filter (receiptMatch ts ob ot)

/-- The debt-invariant I1 of the spec, together with the well-formedness facts
the handlers rely on: user ids are non-empty (they are `uuidv4()` strings) and
pairwise distinct (one `User` document per id). -/
def DebtInv (s : State) : Prop :=
  (∀ u ∈ s.users, u.userId ≠ "") ∧
  ((s.users.map User.userId).Nodup) ∧
  (∀ u ∈ s.users, u.debt = unpaidSum s u.userId)

/-- Concrete unpaid transaction used by the witnesses and counterexamples. -/
def demoTxn : Txn :=
  { owedBy := "alice", owedTo := "bob", reason := "dinner", amount := 5,
    timestamp := "2025-01-01T00:00:00.000Z", isPaid := false }

/-- Concrete already-paid transaction. -/
def demoPaidTxn : Txn :=
  { owedBy := "alice", owedTo := "bob", reason := "hotel", amount := 7,
    timestamp := "2025-01-02T00:00:00.000Z", isPaid := true }

/-- A one-transaction event holding `demoTxn`, unpaid. -/
def demoUnpaidEvent : Event :=
  { eventName := "ev", description := "d", createdAt := "c", transactions := [demoTxn] }

/-- The single group of `demoState`. -/
def demoGroup : Group :=
  { groupId := "g1", groupName := "trip", createdBy := "bob",
    members := ["alice", "bob"],
    events := [{ eventName := "ev", description := "d", createdAt := "c",
                 transactions := [demoTxn] }] }

/-- A one-group, one-event store whose single transaction is unpaid and whose
debt scalar satisfies the invariant. -/
def demoState : State :=
  { users := [{ userId := "alice", debt := 5, groups := ["g1"] }],
    groups := [demoGroup] }

/-- A group whose single transaction is already paid. -/
def demoPaidGroup : Group :=
  { groupId := "g1", groupName := "trip", createdBy := "bob",
    members := ["alice", "bob"],
    events := [{ eventName := "ev", description := "d", createdAt := "c",
                 transactions := [demoPaidTxn] }] }

/-- A store whose single matching transaction is already paid. -/
def demoPaidState : State :=
  { users := [{ userId := "alice", debt := 0, groups := ["g1"] }],
    groups := [demoPaidGroup] }

/-- A store holding two paid transactions stored in ascending timestamp order,
both involving the user `"alice"`. -/
def demoHistoryState : State :=
  { users := [],
    groups := [{ groupId := "g1", groupName := "trip", createdBy := "bob",
                 members := ["alice", "bob"],
                 events := [{ eventName := "ev", description := "d", createdAt := "c",
                              transactions := [demoPaidTxn,
                                { owedBy := "carol", owedTo := "alice", reason := "taxi",
                                  amount := 3, timestamp := "2025-03-01T00:00:00.000Z",
                                  isPaid := true }] }] }] }

/-- An event whose only transaction is a self-transaction (`owedBy == owedTo`)
with a non-positive amount — exactly what the spec says `AddEvent` must reject. -/
def demoBadEvent : Event :=
  { eventName := "bad", description := "self", createdAt := "",
    transactions := [{ owedBy := "alice", owedTo := "alice", reason := "self",
                       amount := -3, timestamp := "2025-04-01T00:00:00.000Z",
                       isPaid := false }] }

/-- An event whose only transaction is submitted already marked paid. -/
def demoPrepaidEvent : Event :=
  { eventName := "pre", description := "prepaid", createdAt := "",
    transactions := [{ owedBy := "alice", owedTo := "bob", reason := "pre",
                       amount := 5, timestamp := "2025-05-01T00:00:00.000Z",
                       isPaid := true }] }

/-! ## Generic lemmas about the store helpers -/

theorem updateFirst_decomp {α : Type} {p : α → Bool} (f : α → α) {l : List α} {x : α}
    (h : l.find? p = some x) :
    ∃ l1 l2, l = l1 ++ x :: l2 ∧ (∀ y ∈ l1, p y = false) ∧ p x = true ∧
      updateFirst p f l = l1 ++ f x :: l2 := by
  induction l with
  | nil => simp at h
  | cons a as ih =>
    by_cases hpa : p a
    · rw [List.find?_cons_of_pos _ hpa, Option.some_inj] at h
      subst h
      exact ⟨[], as, rfl, by simp, hpa, by simp [updateFirst, hpa]⟩
    · rw [List.find?_cons_of_neg _ hpa] at h
      obtain ⟨l1, l2, h1, h2, h3, h4⟩ := ih h
      refine ⟨a :: l1, l2, by simp [h1], ?_, h3, ?_⟩
      · intro y hy
        rcases List.mem_cons.mp hy with rfl | hy2
        · exact Bool.of_not_eq_true hpa
        · exact h2 y hy2
      · simp [updateFirst, hpa, h4]

theorem updateFirst_map_eq {α β : Type} {p : α → Bool} {f : α → α} {g : α → β}
    (hg : ∀ x, g (f x) = g x) (l : List α) :
    (updateFirst p f l).map g = l.map g := by
  induction l with
  | nil => rfl
  | cons a as ih =>
    by_cases hpa : p a <;> simp [updateFirst, hpa, hg, ih]

theorem updateFirst_getElem? {α : Type} (p : α → Bool) (f : α → α) (l : List α) (i : Nat) :
    (updateFirst p f l)[i]? = l[i]? ∨
      ∃ x, l[i]? = some x ∧ (updateFirst p f l)[i]? = some (f x) := by
  induction l generalizing i with
  | nil => left; rfl
  | cons a as ih =>
    by_cases hpa : p a
    · cases i with
      | zero => right; exact ⟨a, by simp, by simp [updateFirst, hpa]⟩
      | succ j => left; simp [updateFirst, hpa]
    · cases i with
      | zero => left; simp [updateFirst, hpa]
      | succ j =>
        rcases ih j with h | ⟨x, hx1, hx2⟩
        · left; simpa [updateFirst, hpa] using h
        · right; exact ⟨x, by simpa using hx1, by simpa [updateFirst, hpa] using hx2⟩

/-- Relation between the elements of two lists differing at one position. -/
theorem getElem?_middle_cases {α : Type} (l1 l2 : List α) (x y : α) (i : Nat) :
    ((l1 ++ x :: l2)[i]? = (l1 ++ y :: l2)[i]?) ∨
      ((l1 ++ x :: l2)[i]? = some x ∧ (l1 ++ y :: l2)[i]? = some y) := by
  rcases Nat.lt_trichotomy i l1.length with hlt | heq | hgt
  · left
    rw [List.getElem?_append_left hlt, List.getElem?_append_left hlt]
  · right
    subst heq
    constructor <;>
      · rw [List.getElem?_append_right (Nat.le_refl _)]
        simp
  · left
    have h1 : l1.length ≤ i := Nat.le_of_lt hgt
    rw [List.getElem?_append_right h1, List.getElem?_append_right h1]
    have h2 : 1 ≤ i - l1.length := Nat.le_sub_of_add_le (by omega)
    rcases Nat.exists_eq_add_of_le h2 with ⟨k, hk⟩
    simp [hk, Nat.add_comm 1 k]

theorem findAndSet_none_iff {p : Txn → Bool} {f : Txn → Txn} {ts : List Txn} :
    findAndSet p f ts = none ↔ ∀ t ∈ ts, p t = false := by
  induction ts with
  | nil => simp [findAndSet]
  | cons t ts ih =>
    by_cases hpt : p t
    · simp [findAndSet, hpt]
    · have hpt2 : p t = false := by simpa using hpt
      constructor
      · intro h
        intro x hx
        rcases List.mem_cons.mp hx with rfl | hx2
        · exact hpt2
        · rcases hfs : findAndSet p f ts with _ | ⟨ts2, t0⟩
          · exact ih.mp hfs x hx2
          · rw [findAndSet, hpt2, hfs] at h; simp at h
      · intro h
        have h2 : findAndSet p f ts = none := ih.mpr (fun x hx => h x (List.mem_cons_of_mem _ hx))
        simp [findAndSet, hpt2, h2]

theorem findAndSet_decomp {p : Txn → Bool} {f : Txn → Txn} {ts ts2 : List Txn} {t0 : Txn}
    (h : findAndSet p f ts = some (ts2, t0)) :
    ∃ l1 l2, ts = l1 ++ t0 :: l2 ∧ ts2 = l1 ++ f t0 :: l2 ∧ p t0 = true ∧
      ∀ y ∈ l1, p y = false := by
  induction ts generalizing ts2 with
  | nil => simp [findAndSet] at h
  | cons t ts ih =>
    by_cases hpt : p t
    · rw [findAndSet, if_pos hpt, Option.some_inj] at h
      cases h
      exact ⟨[], ts, rfl, by simp, hpt, by simp⟩
    · have hpt2 : p t = false := by simpa using hpt
      rw [findAndSet, hpt2] at h
      simp only [Bool.false_eq_true, if_false] at h
      rcases hfs : findAndSet p f ts with _ | ⟨ts3, t1⟩
      · rw [hfs] at h; simp at h
      · rw [hfs, Option.some_inj] at h
        cases h
        obtain ⟨l1, l2, g1, g2, g3, g4⟩ := ih hfs
        refine ⟨t :: l1, l2, by simp [g1], by simp [g2], g3, ?_⟩
        intro y hy
        rcases List.mem_cons.mp hy with rfl | hy2
        · exact hpt2
        · exact g4 y hy2

theorem updateInEvents_none_iff {en : String} {p : Txn → Bool} {f : Txn → Txn}
    {es : List Event} :
    updateInEvents en p f es = none ↔
      ∀ e ∈ es, e.eventName = en → ∀ t ∈ e.transactions, p t = false := by
  induction es with
  | nil => simp [updateInEvents]
  | cons e es ih =>
    rw [updateInEvents]
    by_cases hen : e.eventName == en
    · rw [if_pos hen]
      have hen2 : e.eventName = en := by simpa using hen
      rcases hfs : findAndSet p f e.transactions with _ | ⟨ts, t1⟩
      · rcases hrec : updateInEvents en p f es with _ | ⟨es3, t2⟩
        · simp only [hrec]
          constructor
          · intro _ x hx
            rcases List.mem_cons.mp hx with rfl | hx2
            · exact fun _ t ht => findAndSet_none_iff.mp hfs t ht
            · exact ih.mp hrec x hx2
          · intro _; trivial
        · simp only [hrec]
          constructor
          · intro hc; cases hc
          · intro hall
            exfalso
            have h2 := ih.mpr (fun x hx => hall x (List.mem_cons_of_mem _ hx))
            rw [hrec] at h2; cases h2
      · simp only []
        constructor
        · intro hc; cases hc
        · intro hall
          exfalso
          obtain ⟨l1, l2, g1, _, g3, _⟩ := findAndSet_decomp hfs
          have ht1 : t1 ∈ e.transactions := by rw [g1]; simp
          have h2 := hall e (by simp) hen2 t1 ht1
          rw [g3] at h2; cases h2
    · rw [if_neg hen]
      have hen2 : ¬e.eventName = en := by simpa using hen
      rcases hrec : updateInEvents en p f es with _ | ⟨es3, t2⟩
      · simp only []
        constructor
        · intro _ x hx
          rcases List.mem_cons.mp hx with rfl | hx2
          · intro hx3; exact absurd hx3 hen2
          · exact ih.mp hrec x hx2
        · intro _; trivial
      · simp only []
        constructor
        · intro hc; cases hc
        · intro hall
          exfalso
          have h2 := ih.mpr (fun x hx => hall x (List.mem_cons_of_mem _ hx))
          rw [hrec] at h2; cases h2

theorem updateInEvents_decomp {en : String} {p : Txn → Bool} {f : Txn → Txn}
    {es es2 : List Event} {t0 : Txn}
    (h : updateInEvents en p f es = some (es2, t0)) :
    ∃ el1 e el2 l1 l2,
      es = el1 ++ e :: el2 ∧
      e.eventName = en ∧
      e.transactions = l1 ++ t0 :: l2 ∧
      es2 = el1 ++ { e with transactions := l1 ++ f t0 :: l2 } :: el2 ∧
      p t0 = true ∧
      (∀ y ∈ l1, p y = false) ∧
      (∀ e2 ∈ el1, e2.eventName = en → ∀ t ∈ e2.transactions, p t = false) := by
  induction es generalizing es2 with
  | nil => simp [updateInEvents] at h
  | cons e es ih =>
    rw [updateInEvents] at h
    by_cases hen : e.eventName == en
    · rw [if_pos hen] at h
      have hen2 : e.eventName = en := by simpa using hen
      rcases hfs : findAndSet p f e.transactions with _ | ⟨ts, t1⟩
      · rw [hfs] at h
        rcases hrec : updateInEvents en p f es with _ | ⟨es3, t2⟩
        · rw [hrec] at h; cases h
        · rw [hrec, Option.some_inj] at h
          cases h
          obtain ⟨el1, e1, el2, l1, l2, g1, g2, g3, g4, g5, g6, g7⟩ := ih hrec
          refine ⟨e :: el1, e1, el2, l1, l2, by simp [g1], g2, g3, by simp [g4], g5, g6, ?_⟩
          intro e2 he2
          rcases List.mem_cons.mp he2 with rfl | he3
          · exact fun _ t ht => findAndSet_none_iff.mp hfs t ht
          · exact g7 e2 he3
      · rw [hfs, Option.some_inj] at h
        cases h
        obtain ⟨l1, l2, g1, g2, g3, g4⟩ := findAndSet_decomp hfs
        exact ⟨[], e, es, l1, l2, by simp, hen2, g1, by simp [g2], g3, g4, by simp⟩
    · rw [if_neg hen] at h
      have hen2 : ¬e.eventName = en := by simpa using hen
      rcases hrec : updateInEvents en p f es with _ | ⟨es3, t2⟩
      · rw [hrec] at h; cases h
      · rw [hrec, Option.some_inj] at h
        cases h
        obtain ⟨el1, e1, el2, l1, l2, g1, g2, g3, g4, g5, g6, g7⟩ := ih hrec
        refine ⟨e :: el1, e1, el2, l1, l2, by simp [g1], g2, g3, by simp [g4], g5, g6, ?_⟩
        intro e2 he2
        rcases List.mem_cons.mp he2 with rfl | he3
        · exact fun hx3 => absurd hx3 hen2
        · exact g7 e2 he3

theorem allTxns_eq (s : State) : allTxns s = (s.groups.map groupTxns).flatten := rfl

/-! ## Shape of a successful handler call -/

theorem createGroup_ok_elim {s s2 : State} {newGid cb gn now : String}
    {members : Option (List String)} {events : Option (List Event)}
    (h : createGroup s newGid cb gn members events now = .ok s2) :
    ∃ ms evs, members = some ms ∧ events = some evs ∧ cb ≠ "" ∧ gn ≠ "" ∧
      s2.users = accrueEvents (pushGroupId s.users ms newGid) evs ∧
      s2.groups = s.groups ++
        [{ groupId := newGid, groupName := gn, createdBy := cb, members := ms,
           events := evs.map (fun e => { e with createdAt := now }) }] := by
  rw [createGroup.eq_def] at h
  split at h
  · cases h
  · next hguard =>
    have hcb : cb ≠ "" := fun hh => hguard (by simp [hh])
    have hgn : gn ≠ "" := fun hh => hguard (by simp [hh])
    split at h
    · next ms evs =>
      rw [Except.ok.injEq] at h
      exact ⟨ms, evs, rfl, rfl, hcb, hgn, by rw [← h], by rw [← h]⟩
    · cases h
    · cases h

theorem addEvent_ok_elim {s s2 : State} {gid now : String} {ev : Event}
    (h : addEvent s gid ev now = .ok s2) :
    ∃ g, findGroup s.groups gid = some g ∧
      s2.users = accrueTxns s.users ev.transactions ∧
      s2.groups = updateFirst (fun gr => gr.groupId == gid)
        (fun gr => { gr with events := gr.events ++
          [if ev.createdAt == "" then { ev with createdAt := now } else ev] }) s.groups := by
  rw [addEvent] at h
  split at h
  · cases h
  · next g hg =>
    rw [Except.ok.injEq] at h
    exact ⟨g, hg, by rw [← h], by rw [← h]⟩

theorem uploadReceiptOnly_ok_elim {s s2 : State} {gid en ts ob ot path : String}
    (h : uploadReceiptOnly s gid en ts ob ot path = .ok s2) :
    ∃ g evs t0,
      findGroup s.groups gid = some g ∧
      updateInEvents en (receiptMatch ts ob ot) (fun t => t) g.events = some (evs, t0) ∧
      s2.users = s.users ∧
      s2.groups = updateFirst (fun gr => gr.groupId == gid)
          (fun gr => { gr with events := evs }) s.groups := by
  rw [uploadReceiptOnly] at h
  split at h
  · cases h
  · split at h
    · cases h
    · next g hg =>
      split at h
      · cases h
      · next evs t0 hu =>
        rw [Except.ok.injEq] at h
        exact ⟨g, evs, t0, hg, hu, by rw [← h], by rw [← h]⟩

theorem markPaid_ok_elim {s s2 : State} {gid en ts ob ot now : String}
    (h : markTransactionPaid s gid en ts ob ot now = .ok s2) :
    ∃ g evs t0,
      findGroup s.groups gid = some g ∧
      updateInEvents en (paidMatch ts ob ot) (fun t => { t with isPaid := true }) g.events
        = some (evs, t0) ∧
      s2.users = incDebt s.users ob (-t0.amount) ∧
      s2.groups = updateFirst (fun gr => gr.groupId == gid)
          (fun gr => { gr with events := evs }) s.groups := by
  rw [markTransactionPaid] at h
  split at h
  · cases h
  · split at h
    · cases h
    · next g hg =>
      split at h
      · cases h
      · next evs t0 hu =>
        rw [Except.ok.injEq] at h
        exact ⟨g, evs, t0, hg, hu, by rw [← h], by rw [← h]⟩

theorem updateMembers_ok_elim {s s2 : State} {gid : String} {members : Option (List String)}
    (h : updateMembers s gid members = .ok s2) :
    ∃ ms g, members = some ms ∧ findGroup s.groups gid = some g ∧
      s2.users = s.users ∧
      s2.groups = updateFirst (fun gr => gr.groupId == gid)
          (fun gr => { gr with members := ms }) s.groups := by
  rw [updateMembers.eq_def] at h
  split at h
  · cases h
  · next ms =>
    split at h
    · cases h
    · next g hg =>
      rw [Except.ok.injEq] at h
      exact ⟨ms, g, rfl, hg, by rw [← h], by rw [← h]⟩

/-! ## Debt bookkeeping lemmas -/

theorem findDebt_cons (a : User) (as : List User) (v : String) :
    findDebt (a :: as) v = if a.userId == v then some a.debt else findDebt as v := by
  by_cases h : a.userId == v <;> simp [findDebt, List.find?, h]

theorem incDebt_cons (a : User) (as : List User) (uid : String) (d : Int) :
    incDebt (a :: as) uid d =
      if a.userId == uid then { a with debt := a.debt + d } :: as
      else a :: incDebt as uid d := by
  by_cases h : a.userId == uid <;> simp [incDebt, updateFirst, h]

theorem findDebt_incDebt (users : List User) (uid v : String) (d : Int) :
    findDebt (incDebt users uid d) v =
      if v = uid then (findDebt users v).map (· + d) else findDebt users v := by
  induction users with
  | nil =>
    by_cases hv : v = uid <;> simp [findDebt, incDebt, updateFirst, hv]
  | cons a as ih =>
    rw [incDebt_cons]
    by_cases ha : a.userId == uid
    · rw [if_pos ha]
      have ha2 : a.userId = uid := by simpa using ha
      by_cases hv : v = uid
      · subst hv
        rw [findDebt_cons, findDebt_cons]
        simp [ha2]
      · have hav : ¬(a.userId == v) := by
          simp only [beq_iff_eq, ha2]
          exact fun hh => hv hh.symm
        rw [findDebt_cons, findDebt_cons, if_neg hav, if_neg hav, if_neg hv]
    · rw [if_neg ha]
      rw [findDebt_cons, findDebt_cons]
      by_cases hav : a.userId == v
      · have hvuid : ¬ v = uid := by
          intro hh
          apply ha
          have hv2 : a.userId = v := by simpa using hav
          simp [hv2, hh]
        simp [hav, hvuid]
      · simp only [hav, Bool.false_eq_true, if_false]
        exact ih

theorem accrueTxns_cons (users : List User) (t : Txn) (ts : List Txn) :
    accrueTxns users (t :: ts) =
      accrueTxns (if t.owedBy == "" || t.amount == 0 then users
        else incDebt users t.owedBy t.amount) ts := by
  simp [accrueTxns]

theorem accrualSum_cons (uid : String) (t : Txn) (ts : List Txn) :
    accrualSum uid (t :: ts) =
      (if t.owedBy == uid && !(t.owedBy == "") && !(t.amount == 0) then t.amount else 0)
        + accrualSum uid ts := by
  by_cases h : (t.owedBy == uid && !(t.owedBy == "") && !(t.amount == 0)) <;>
    simp [accrualSum, List.filter_cons, h]

theorem findDebt_accrueTxns (users : List User) (txns : List Txn) (v : String) :
    findDebt (accrueTxns users txns) v = (findDebt users v).map (· + accrualSum v txns) := by
  induction txns generalizing users with
  | nil =>
    simp [accrueTxns, accrualSum]
  | cons t ts ih =>
    rw [accrueTxns_cons, accrualSum_cons]
    by_cases hskip : t.owedBy == "" || t.amount == 0
    · rw [if_pos hskip, ih]
      have hc : (t.owedBy == v && !(t.owedBy == "") && !(t.amount == 0)) = false := by
        rcases Bool.or_eq_true_iff.mp hskip with h1 | h1 <;> simp [h1]
      rw [hc]
      simp
    · rw [if_neg hskip, ih, findDebt_incDebt]
      have hne : (t.owedBy == "") = false := by
        have : ¬(t.owedBy == "") := fun hh => hskip (by simp [hh])
        simpa using this
      have hza : (t.amount == 0) = false := by
        have : ¬(t.amount == 0) := fun hh => hskip (by simp [hh])
        simpa using this
      by_cases hv : v = t.owedBy
      · rw [if_pos hv]
        have hc : (t.owedBy == v && !(t.owedBy == "") && !(t.amount == 0)) = true := by
          simp [hv, hne, hza]
        rw [hc]
        rw [Option.map_map]
        cases findDebt users v <;> simp [Function.comp, Int.add_assoc]
      · rw [if_neg hv]
        have hc : (t.owedBy == v && !(t.owedBy == "") && !(t.amount == 0)) = false := by
          have hnv : ¬(t.owedBy == v) := by
            simp only [beq_iff_eq]
            exact fun hh => hv hh.symm
          simp [hnv]
        rw [hc]
        simp

theorem findDebt_accrueEvents (users : List User) (evs : List Event) (v : String) :
    findDebt (accrueEvents users evs) v =
      (findDebt users v).map (· + eventsAccrualSum v evs) := by
  induction evs generalizing users with
  | nil => simp [accrueEvents, eventsAccrualSum]
  | cons e es ih =>
    have hcons : accrueEvents users (e :: es) = accrueEvents (accrueTxns users e.transactions) es := by
      simp [accrueEvents]
    rw [hcons, ih, findDebt_accrueTxns]
    have hsum : eventsAccrualSum v (e :: es) = accrualSum v e.transactions + eventsAccrualSum v es := by
      simp [eventsAccrualSum]
    rw [hsum, Option.map_map]
    cases findDebt users v <;> simp [Function.comp, Int.add_assoc]

theorem findDebt_pushGroupId (users : List User) (ms : List String) (gid v : String) :
    findDebt (pushGroupId users ms gid) v = findDebt users v := by
  induction users with
  | nil => rfl
  | cons a as ih =>
    rw [show pushGroupId (a :: as) ms gid =
        (if ms.contains a.userId then { a with groups := a.groups ++ [gid] } else a)
          :: pushGroupId as ms gid from rfl]
    rw [findDebt_cons, findDebt_cons]
    have hl : (if ms.contains a.userId then { a with groups := a.groups ++ [gid] } else a).userId
        = a.userId := by split <;> rfl
    have hd : (if ms.contains a.userId then { a with groups := a.groups ++ [gid] } else a).debt
        = a.debt := by split <;> rfl
    rw [hl, hd]
    by_cases hav : a.userId == v
    · rw [if_pos hav, if_pos hav]
    · rw [if_neg hav, if_neg hav]
      exact ih

theorem map_userId_incDebt (users : List User) (uid : String) (d : Int) :
    (incDebt users uid d).map User.userId = users.map User.userId := by
  unfold incDebt
  exact updateFirst_map_eq (f := fun u => { u with debt := u.debt + d }) (g := User.userId)
    (fun _ => rfl) users

theorem map_userId_accrueTxns (users : List User) (txns : List Txn) :
    (accrueTxns users txns).map User.userId = users.map User.userId := by
  induction txns generalizing users with
  | nil => rfl
  | cons t ts ih =>
    rw [accrueTxns_cons]
    by_cases hskip : t.owedBy == "" || t.amount == 0
    · rw [if_pos hskip]; exact ih users
    · rw [if_neg hskip, ih, map_userId_incDebt]

theorem map_userId_accrueEvents (users : List User) (evs : List Event) :
    (accrueEvents users evs).map User.userId = users.map User.userId := by
  induction evs generalizing users with
  | nil => rfl
  | cons e es ih =>
    have hcons : accrueEvents users (e :: es) = accrueEvents (accrueTxns users e.transactions) es := by
      simp [accrueEvents]
    rw [hcons, ih, map_userId_accrueTxns]

theorem map_userId_pushGroupId (users : List User) (ms : List String) (gid : String) :
    (pushGroupId users ms gid).map User.userId = users.map User.userId := by
  induction users with
  | nil => rfl
  | cons a as ih =>
    rw [show pushGroupId (a :: as) ms gid =
        (if ms.contains a.userId then { a with groups := a.groups ++ [gid] } else a)
          :: pushGroupId as ms gid from rfl]
    rw [List.map_cons, List.map_cons, List.cons.injEq]
    exact ⟨by split <;> rfl, ih⟩

theorem unpaidSumTxns_append (uid : String) (l1 l2 : List Txn) :
    unpaidSumTxns uid (l1 ++ l2) = unpaidSumTxns uid l1 + unpaidSumTxns uid l2 := by
  simp [unpaidSumTxns, List.filter_append]

theorem unpaidSumTxns_cons (uid : String) (t : Txn) (ts : List Txn) :
    unpaidSumTxns uid (t :: ts) =
      (if t.owedBy == uid && !t.isPaid then t.amount else 0) + unpaidSumTxns uid ts := by
  by_cases h : (t.owedBy == uid && !t.isPaid) <;> simp [unpaidSumTxns, List.filter_cons, h]

theorem accrualSum_append (uid : String) (l1 l2 : List Txn) :
    accrualSum uid (l1 ++ l2) = accrualSum uid l1 + accrualSum uid l2 := by
  simp [accrualSum, List.filter_append]

/-- For a non-empty user id and all-unpaid transactions, the accrual loop
contributes exactly the unpaid sum the invariant expects. -/
theorem accrualSum_eq_unpaidSumTxns {uid : String} (hid : uid ≠ "") {txns : List Txn}
    (hunpaid : ∀ t ∈ txns, t.isPaid = false) :
    accrualSum uid txns = unpaidSumTxns uid txns := by
  induction txns with
  | nil => rfl
  | cons t ts ih =>
    have ht := hunpaid t (by simp)
    have ihs := ih (fun x hx => hunpaid x (List.mem_cons_of_mem _ hx))
    rw [accrualSum_cons, unpaidSumTxns_cons, ihs]
    congr 1
    by_cases hob : t.owedBy == uid
    · have hob2 : t.owedBy = uid := by simpa using hob
      have hne : (t.owedBy == "") = false := by simp [hob2, hid]
      by_cases hz : t.amount == 0
      · have hz2 : t.amount = 0 := by simpa using hz
        simp [hob, hne, hz, ht, hz2]
      · have hz3 : (t.amount == 0) = false := by simpa using hz
        simp [hob, hne, hz3, ht]
    · have hob3 : (t.owedBy == uid) = false := by simpa using hob
      simp [hob3]

/-! ## Decomposing the transaction list around a settlement update -/

theorem updateFirst_eq_append {α : Type} (p : α → Bool) (f : α → α) (l1 l2 : List α) (x : α)
    (h1 : ∀ y ∈ l1, p y = false) (h2 : p x = true) :
    updateFirst p f (l1 ++ x :: l2) = l1 ++ f x :: l2 := by
  induction l1 with
  | nil => simp [updateFirst, h2]
  | cons a as ih =>
    have ha : p a = false := h1 a (by simp)
    simp only [List.cons_append, updateFirst, ha, Bool.false_eq_true, if_false]
    exact congrArg (List.cons a) (ih (fun y hy => h1 y (by simp [hy])))

theorem find?_eq_append {α : Type} (p : α → Bool) (l1 l2 : List α) (x : α)
    (h1 : ∀ y ∈ l1, p y = false) (h2 : p x = true) :
    (l1 ++ x :: l2).find? p = some x := by
  induction l1 with
  | nil => simp [List.find?_cons_of_pos, h2]
  | cons a as ih =>
    have ha : p a = false := h1 a (by simp)
    rw [List.cons_append, List.find?_cons_of_neg _ (by simp [ha])]
    exact ih (fun y hy => h1 y (by simp [hy]))

theorem groupTxns_decomp {es es2 : List Event} {en : String} {p : Txn → Bool} {f : Txn → Txn}
    {t0 : Txn} (h : updateInEvents en p f es = some (es2, t0)) :
    ∃ l1 l2, (es.map (fun e => e.transactions)).flatten = l1 ++ t0 :: l2 ∧
      (es2.map (fun e => e.transactions)).flatten = l1 ++ f t0 :: l2 ∧ p t0 = true := by
  obtain ⟨el1, e, el2, l1, l2, g1, _, g3, g4, g5, _, _⟩ := updateInEvents_decomp h
  refine ⟨(el1.map (fun e => e.transactions)).flatten ++ l1,
          l2 ++ (el2.map (fun e => e.transactions)).flatten, ?_, ?_, g5⟩
  · rw [g1]
    simp [g3, List.append_assoc]
  · rw [g4]
    simp [List.append_assoc]

theorem stateTxns_decomp {gs : List Group} {gid : String} {g : Group} {en : String}
    {p : Txn → Bool} {f : Txn → Txn} {evs : List Event} {t0 : Txn}
    (hg : findGroup gs gid = some g)
    (hu : updateInEvents en p f g.events = some (evs, t0)) :
    ∃ L1 L2, (gs.map groupTxns).flatten = L1 ++ t0 :: L2 ∧
      ((updateFirst (fun gr => gr.groupId == gid) (fun gr => { gr with events := evs }) gs).map
          groupTxns).flatten = L1 ++ f t0 :: L2 ∧ p t0 = true := by
  obtain ⟨gl1, gl2, d1, d2, d3, d4⟩ :=
    updateFirst_decomp (fun gr => { gr with events := evs }) hg
  obtain ⟨l1, l2, e1, e2, e3⟩ := groupTxns_decomp hu
  refine ⟨(gl1.map groupTxns).flatten ++ l1, l2 ++ (gl2.map groupTxns).flatten, ?_, ?_, e3⟩
  · rw [d1, List.map_append, List.flatten_append, List.map_cons, List.flatten_cons]
    rw [show groupTxns g = l1 ++ t0 :: l2 from e1]
    simp [List.append_assoc]
  · rw [d4, List.map_append, List.flatten_append, List.map_cons, List.flatten_cons]
    rw [show groupTxns { g with events := evs } = l1 ++ f t0 :: l2 from e2]
    simp [List.append_assoc]

theorem paidMatch_elim {ts ob ot : String} {t : Txn} (h : paidMatch ts ob ot t = true) :
    t.timestamp = ts ∧ t.owedBy = ob ∧ t.owedTo = ot ∧ t.isPaid = false := by
  simp only [paidMatch, Bool.and_eq_true, beq_iff_eq, Bool.not_eq_true'] at h
  exact ⟨h.1.1.1, h.1.1.2, h.1.2, h.2⟩

theorem receiptMatch_elim {ts ob ot : String} {t : Txn} (h : receiptMatch ts ob ot t = true) :
    t.timestamp = ts ∧ t.owedBy = ob ∧ t.owedTo = ot := by
  simp only [receiptMatch, Bool.and_eq_true, beq_iff_eq] at h
  exact ⟨h.1.1, h.1.2, h.2⟩

/-- A successful `markTransactionPaid` rewrites exactly one transaction of the
store — the first unpaid one matching the submitted key — setting its flag, and
decrements `debt[owedBy]` by its amount. -/
theorem markPaid_txns_decomp {s s2 : State} {gid en ts ob ot now : String}
    (h : markTransactionPaid s gid en ts ob ot now = .ok s2) :
    ∃ L1 t L2, allTxns s = L1 ++ t :: L2 ∧
      allTxns s2 = L1 ++ { t with isPaid := true } :: L2 ∧
      paidMatch ts ob ot t = true ∧
      s2.users = incDebt s.users ob (-t.amount) := by
  obtain ⟨g, evs, t0, hg, hu, hus, hgs⟩ := markPaid_ok_elim h
  obtain ⟨L1, L2, b1, b2, b3⟩ := stateTxns_decomp hg hu
  refine ⟨L1, t0, L2, ?_, ?_, b3, hus⟩
  · rw [allTxns_eq]; exact b1
  · rw [allTxns_eq, hgs]; exact b2

/-- An identity rewrite found by the event-level loop reproduces the event
list unchanged (structure eta: replacing a field by itself is the identity). -/
theorem updateInEvents_id_eq {en : String} {p : Txn → Bool} {es es2 : List Event} {t0 : Txn}
    (h : updateInEvents en p (fun t => t) es = some (es2, t0)) : es2 = es := by
  obtain ⟨el1, e, el2, l1, l2, g1, _, g3, g4, _, _, _⟩ := updateInEvents_decomp h
  rw [g4, ← g3, g1]

/-- A successful `uploadReceiptOnly` leaves the persisted store exactly as it
was: the matched transaction's rewrite is the identity (the in-memory
`txn.receipt` assignment is dropped by strict mode on save). -/
theorem uploadReceiptOnly_ok_state {s s2 : State} {gid en ts ob ot path : String}
    (h : uploadReceiptOnly s gid en ts ob ot path = .ok s2) : s2 = s := by
  obtain ⟨g, evs, t0, hg, hu, hus, hgs⟩ := uploadReceiptOnly_ok_elim h
  obtain rfl : evs = g.events := updateInEvents_id_eq hu
  obtain ⟨gl1, gl2, d1, d2, d3, d4⟩ :=
    updateFirst_decomp (fun gr => { gr with events := g.events }) hg
  have hgs2 : s2.groups = s.groups := by
    rw [hgs, d4, d1]
  have hs2 : s2 = { users := s2.users, groups := s2.groups } := rfl
  rw [hs2, hus, hgs2]

/-! ## Effect of the two accruing handlers -/

theorem createGroup_effect {s s2 : State} {newGid cb gn now : String}
    {ms : List String} {evs : List Event}
    (h : createGroup s newGid cb gn (some ms) (some evs) now = .ok s2) :
    (∀ v, getDebt s2 v = (getDebt s v).map (· + eventsAccrualSum v evs)) ∧
    allTxns s2 = allTxns s ++ (evs.map (fun e => e.transactions)).flatten := by
  obtain ⟨ms2, evs2, hm, he, _, _, hus, hgs⟩ := createGroup_ok_elim h
  obtain rfl : ms = ms2 := Option.some.inj hm
  obtain rfl : evs = evs2 := Option.some.inj he
  constructor
  · intro v
    rw [getDebt, getDebt, hus, findDebt_accrueEvents, findDebt_pushGroupId]
  · rw [allTxns_eq, allTxns_eq, hgs, List.map_append, List.flatten_append]
    congr 1
    simp only [List.map_cons, List.map_nil, List.flatten_cons, List.flatten_nil, List.append_nil]
    have hrw : groupTxns
        { groupId := newGid, groupName := gn, createdBy := cb, members := ms,
          events := evs.map (fun e => { e with createdAt := now }) }
        = ((evs.map (fun e => { e with createdAt := now })).map
            (fun e => e.transactions)).flatten := rfl
    rw [hrw, List.map_map]
    rfl

theorem addEvent_effect {s s2 : State} {gid now : String} {ev : Event}
    (h : addEvent s gid ev now = .ok s2) :
    (∀ v, getDebt s2 v = (getDebt s v).map (· + accrualSum v ev.transactions)) ∧
    ∃ L1 L2, allTxns s = L1 ++ L2 ∧ allTxns s2 = L1 ++ ev.transactions ++ L2 := by
  obtain ⟨g, hg, hus, hgs⟩ := addEvent_ok_elim h
  refine ⟨fun v => by rw [getDebt, getDebt, hus, findDebt_accrueTxns], ?_⟩
  obtain ⟨gl1, gl2, d1, d2, d3, d4⟩ := updateFirst_decomp
    (fun gr => { gr with events := gr.events ++
      [if ev.createdAt == "" then { ev with createdAt := now } else ev] }) hg
  refine ⟨(gl1.map groupTxns).flatten ++ groupTxns g, (gl2.map groupTxns).flatten, ?_, ?_⟩
  · rw [allTxns_eq, d1]
    simp [List.append_assoc]
  · rw [allTxns_eq, hgs, d4]
    simp only [List.map_append, List.flatten_append, List.map_cons, List.flatten_cons]
    have htx : (if ev.createdAt == "" then { ev with createdAt := now } else ev).transactions
        = ev.transactions := by split <;> rfl
    have hgt : groupTxns { g with events := g.events ++
          [if ev.createdAt == "" then { ev with createdAt := now } else ev] }
        = groupTxns g ++ ev.transactions := by
      simp only [groupTxns, List.map_append, List.map_cons, List.map_nil, List.flatten_append,
        List.flatten_cons, List.flatten_nil, List.append_nil, htx]
    rw [hgt]
    simp [List.append_assoc]

/-- C9: a successful UpdateMembers replaces exactly the target group's member
list: the user collection (hence every debt scalar) is untouched, every stored
transaction is unchanged, and all other group fields and groups survive
verbatim. -/
theorem c9_updateMembers_frame {s s2 : State} {gid : String} {members : Option (List String)}
    (h : updateMembers s gid members = .ok s2) :
    s2.users = s.users ∧
    allTxns s2 = allTxns s ∧
    ∃ ms gl1 g gl2, members = some ms ∧
      s.groups = gl1 ++ g :: gl2 ∧
      s2.groups = gl1 ++ { g with members := ms } :: gl2 := by
  obtain ⟨ms, g, hms, hg, hus, hgs⟩ := updateMembers_ok_elim h
  obtain ⟨gl1, gl2, d1, d2, d3, d4⟩ := updateFirst_decomp (fun gr => { gr with members := ms }) hg
  refine ⟨hus, ?_, ms, gl1, g, gl2, hms, d1, by rw [hgs, d4]⟩
  rw [allTxns_eq, allTxns_eq, hgs, d4, d1]
  rw [List.map_append, List.map_append, List.map_cons, List.map_cons]
  rfl

/-- C9 witness: replacing the members of the demo group changes neither the
users nor any transaction. -/
theorem c9_updateMembers_frame_witness :
    (applyOp demoState (Op.updateMembers "g1" (some ["carol"]))).users = demoState.users ∧
    allTxns (applyOp demoState (Op.updateMembers "g1" (some ["carol"]))) = allTxns demoState := by
  have h : updateMembers demoState "g1" (some ["carol"])
      = .ok (applyOp demoState (Op.updateMembers "g1" (some ["carol"]))) := rfl
  obtain ⟨h1, h2, _⟩ := c9_updateMembers_frame h
  exact ⟨h1, h2⟩

/-- C6 (amended): CreateGroup stores the submitted member list verbatim — it is
not deduplicated and the creator is not implicitly inserted (the creator is
recorded separately in `createdBy`). -/
theorem c6_createGroup_members {s s2 : State} {newGid cb gn now : String}
    {members : Option (List String)} {events : Option (List Event)}
    (h : createGroup s newGid cb gn members events now = .ok s2) :
    ∃ ms g, members = some ms ∧ s2.groups = s.groups ++ [g] ∧ g.members = ms ∧
      g.groupId = newGid ∧ g.createdBy = cb := by
  obtain ⟨ms, evs, hm, he, _, _, hus, hgs⟩ := createGroup_ok_elim h
  exact ⟨ms, _, hm, hgs, rfl, rfl, rfl⟩

/-- C6 witness: the stored member list is exactly the submitted one. -/
theorem c6_createGroup_members_witness :
    (applyOp (initState ["alice", "bob"]) (Op.createGroup "g1" "alice" "trip"
        (some ["bob", "alice"]) (some []) "T0")).groups.map Group.members = [["bob", "alice"]] := by
  have h : createGroup (initState ["alice", "bob"]) "g1" "alice" "trip"
      (some ["bob", "alice"]) (some []) "T0"
      = .ok (applyOp (initState ["alice", "bob"]) (Op.createGroup "g1" "alice" "trip"
          (some ["bob", "alice"]) (some []) "T0")) := rfl
  obtain ⟨ms, g, hm, hgs, hmem, _, _⟩ := c6_createGroup_members h
  obtain rfl : (["bob", "alice"] : List String) = ms := Option.some.inj hm
  rw [hgs]
  simp [hmem, initState]

/-- C6 counterexample: submitting a duplicated member list that omits the
creator yields a group whose member list has duplicates and lacks the creator —
the claimed deduplication and creator inclusion do not happen. -/
theorem c6_counterexample :
    (applyOp (initState ["alice", "bob"]) (Op.createGroup "g1" "alice" "trip"
        (some ["bob", "bob"]) (some []) "T0")).groups.map Group.members = [["bob", "bob"]] ∧
    ¬ (["bob", "bob"] : List String).Nodup ∧
    "alice" ∉ (["bob", "bob"] : List String) := by
  refine ⟨rfl, by decide, by decide⟩

/-- C10: the debt increment on submission is applied exactly for transactions
with a non-empty `owedBy` and a non-zero `amount` — `accrualSum` never consults
the paid flag — and the submitted transactions are stored verbatim either way,
both for CreateGroup and AddEvent. -/
theorem c10_accrual_iff :
    (∀ s s2 newGid cb gn now (ms : List String) (evs : List Event),
      createGroup s newGid cb gn (some ms) (some evs) now = .ok s2 →
        (∀ v, getDebt s2 v = (getDebt s v).map (· + eventsAccrualSum v evs)) ∧
        allTxns s2 = allTxns s ++ (evs.map (fun e => e.transactions)).flatten) ∧
    (∀ s s2 gid now (ev : Event),
      addEvent s gid ev now = .ok s2 →
        (∀ v, getDebt s2 v = (getDebt s v).map (· + accrualSum v ev.transactions)) ∧
        ∃ L1 L2, allTxns s = L1 ++ L2 ∧ allTxns s2 = L1 ++ ev.transactions ++ L2) ∧
    (∀ v (t : Txn), accrualSum v [t] =
      if t.owedBy = v ∧ t.owedBy ≠ "" ∧ t.amount ≠ 0 then t.amount else 0) := by
  refine ⟨fun _ _ _ _ _ _ _ _ h => createGroup_effect h,
          fun _ _ _ _ _ h => addEvent_effect h, ?_⟩
  intro v t
  have h0 : accrualSum v ([] : List Txn) = 0 := rfl
  rw [accrualSum_cons, h0, Int.add_zero]
  by_cases h1 : t.owedBy = v <;> by_cases h2 : t.owedBy = "" <;> by_cases h3 : t.amount = 0 <;>
    simp [h1, h2, h3]

/-- C10 witness: a transaction submitted with `isPaid: true` still accrues its
full amount to the payer's debt and is stored. -/
theorem c10_accrual_iff_witness :
    getDebt (applyOp (initState ["alice"]) (Op.createGroup "g1" "bob" "trip" (some ["alice"])
        (some [demoPrepaidEvent]) "T0")) "alice" = some 5 ∧
    allTxns (applyOp (initState ["alice"]) (Op.createGroup "g1" "bob" "trip" (some ["alice"])
        (some [demoPrepaidEvent]) "T0")) = demoPrepaidEvent.transactions := by
  have h : createGroup (initState ["alice"]) "g1" "bob" "trip" (some ["alice"])
      (some [demoPrepaidEvent]) "T0"
      = .ok (applyOp (initState ["alice"]) (Op.createGroup "g1" "bob" "trip" (some ["alice"])
          (some [demoPrepaidEvent]) "T0")) := rfl
  obtain ⟨hdebt, htx⟩ := c10_accrual_iff.1 _ _ _ _ _ _ _ _ h
  constructor
  · rw [hdebt "alice"]; rfl
  · rw [htx]; rfl

/-- C4 (amended): AddEvent performs no validation of the submitted event: it
fails with NotFound exactly when the group is absent, and otherwise succeeds
for every event — including transactions with `amount <= 0` or
`owedBy == owedTo` — storing them verbatim and accruing debt by the accrual
rule. -/
theorem c4_addEvent_no_validation (s : State) (gid : String) (ev : Event) (now : String) :
    (findGroup s.groups gid = none → addEvent s gid ev now = .error .notFound) ∧
    (∀ g, findGroup s.groups gid = some g → ∃ s2, addEvent s gid ev now = .ok s2 ∧
      (∀ v, getDebt s2 v = (getDebt s v).map (· + accrualSum v ev.transactions)) ∧
      ∃ L1 L2, allTxns s = L1 ++ L2 ∧ allTxns s2 = L1 ++ ev.transactions ++ L2) := by
  constructor
  · intro hn
    rw [addEvent, hn]
  · intro g hg
    have hok : addEvent s gid ev now = .ok
        { users := accrueTxns s.users ev.transactions,
          groups := (updateFirst (fun gr => gr.groupId == gid)
            (fun gr => { gr with events := gr.events ++
              [if ev.createdAt == "" then { ev with createdAt := now } else ev] }) s.groups) } := by
      rw [addEvent, hg]
    exact ⟨_, hok, addEvent_effect hok⟩

/-- C4 witness: NotFound on a missing group; success on an existing one. -/
theorem c4_addEvent_no_validation_witness :
    addEvent demoState "nope" demoBadEvent "T9" = .error .notFound ∧
    addEvent demoState "g1" demoBadEvent "T9" ≠ .error .notFound := by
  constructor
  · exact (c4_addEvent_no_validation demoState "nope" demoBadEvent "T9").1 rfl
  · obtain ⟨s2, hok, _⟩ :=
      (c4_addEvent_no_validation demoState "g1" demoBadEvent "T9").2 _ rfl
    rw [hok]
    simp

/-- C4 counterexample: an event whose only transaction has a negative amount
and `owedBy == owedTo` is accepted — AddEvent returns success and mutates the
store instead of failing with ValidationError. -/
theorem c4_counterexample :
    addEvent demoState "g1" demoBadEvent "T9"
      = .ok (applyOp demoState (Op.addEvent "g1" demoBadEvent "T9")) ∧
    applyOp demoState (Op.addEvent "g1" demoBadEvent "T9") ≠ demoState := by
  exact ⟨rfl, by decide⟩

/-- C2 (amended): a successful MarkPaid, as one step, flips exactly one
transaction — the first unpaid match of the key — to paid, decrements
`debt[owedBy]` by exactly its amount, and exactly one new settlement record
appears, capturing the transaction's amount, parties and reason; the record's
timestamp is the transaction's original stored timestamp (the handler never
reads the clock), not the instant of settlement. -/
theorem c2_markPaid_effects {s s2 : State} {gid en ts ob ot now : String}
    (h : markTransactionPaid s gid en ts ob ot now = .ok s2) :
    ∃ L1 t L2, allTxns s = L1 ++ t :: L2 ∧ t.isPaid = false ∧
      t.timestamp = ts ∧ t.owedBy = ob ∧ t.owedTo = ot ∧
      allTxns s2 = L1 ++ { t with isPaid := true } :: L2 ∧
      getDebt s2 ob = (getDebt s ob).map (· - t.amount) ∧
      List.Perm (allRecords s2)
        ({ amount := t.amount, owedBy := t.owedBy, owedTo := t.owedTo, reason := t.reason,
           currency := "INR", paymentTimestamp := t.timestamp } :: allRecords s) := by
  obtain ⟨L1, t, L2, b1, b2, b3, busers⟩ := markPaid_txns_decomp h
  obtain ⟨m1, m2, m3, m4⟩ := paidMatch_elim b3
  refine ⟨L1, t, L2, b1, m4, m1, m2, m3, b2, ?_, ?_⟩
  · rw [getDebt, getDebt, busers, findDebt_incDebt, if_pos rfl]
    cases findDebt s.users ob <;> simp [Int.sub_eq_add_neg]
  · have hrec : allRecords s2 = ((L1.filter (fun x => x.isPaid)).map txnRec)
        ++ txnRec { t with isPaid := true } :: ((L2.filter (fun x => x.isPaid)).map txnRec) := by
      rw [allRecords, b2, List.filter_append, List.filter_cons]
      simp
    have hrec2 : allRecords s = ((L1.filter (fun x => x.isPaid)).map txnRec)
        ++ ((L2.filter (fun x => x.isPaid)).map txnRec) := by
      rw [allRecords, b1, List.filter_append, List.filter_cons, m4]
      simp
    rw [hrec, hrec2]
    exact List.perm_middle

/-- C2 witness: settling the demo transaction realises every effect at once. -/
theorem c2_markPaid_effects_witness :
    ∃ L1 t L2, allTxns demoState = L1 ++ t :: L2 ∧ t.isPaid = false ∧
      t.timestamp = "2025-01-01T00:00:00.000Z" ∧ t.owedBy = "alice" ∧ t.owedTo = "bob" ∧
      allTxns (applyOp demoState (Op.markTransactionPaid "g1" "ev" "2025-01-01T00:00:00.000Z"
        "alice" "bob" "TX")) = L1 ++ { t with isPaid := true } :: L2 ∧
      getDebt (applyOp demoState (Op.markTransactionPaid "g1" "ev" "2025-01-01T00:00:00.000Z"
        "alice" "bob" "TX")) "alice" = (getDebt demoState "alice").map (· - t.amount) ∧
      List.Perm (allRecords (applyOp demoState (Op.markTransactionPaid "g1" "ev"
        "2025-01-01T00:00:00.000Z" "alice" "bob" "TX")))
        ({ amount := t.amount, owedBy := t.owedBy, owedTo := t.owedTo, reason := t.reason,
           currency := "INR", paymentTimestamp := t.timestamp } :: allRecords demoState) :=
  @c2_markPaid_effects demoState
    (applyOp demoState (Op.markTransactionPaid "g1" "ev" "2025-01-01T00:00:00.000Z"
      "alice" "bob" "TX"))
    "g1" "ev" "2025-01-01T00:00:00.000Z" "alice" "bob" "TX" rfl

/-- C2 counterexample: the demo transaction is created with timestamp
2025-01-01 and settled while the wall clock reads 2025-06-30; the single new
settlement record is stamped 2025-01-01 — the settlement instant is not
captured anywhere. -/
theorem c2_counterexample :
    markTransactionPaid demoState "g1" "ev" "2025-01-01T00:00:00.000Z" "alice" "bob"
        "2025-06-30T00:00:00.000Z"
      = .ok (applyOp demoState (Op.markTransactionPaid "g1" "ev" "2025-01-01T00:00:00.000Z"
          "alice" "bob" "2025-06-30T00:00:00.000Z")) ∧
    allRecords demoState = [] ∧
    (allRecords (applyOp demoState (Op.markTransactionPaid "g1" "ev"
        "2025-01-01T00:00:00.000Z" "alice" "bob" "2025-06-30T00:00:00.000Z"))).map
      SRecord.paymentTimestamp = ["2025-01-01T00:00:00.000Z"] ∧
    ("2025-01-01T00:00:00.000Z" : String) ≠ "2025-06-30T00:00:00.000Z" := by
  exact ⟨rfl, rfl, rfl, by decide⟩

/-! ## The settlement-history projection -/

theorem foldl_push_filter {α β : Type} (p : α → Bool) (f : α → β) (l : List α)
    (acc : List β) :
    l.foldl (fun a x => if p x then a ++ [f x] else a) acc = acc ++ (l.filter p).map f := by
  induction l generalizing acc with
  | nil => simp
  | cons x xs ih =>
    rw [List.foldl_cons, ih, List.filter_cons]
    by_cases hp : p x <;> simp [hp]

theorem foldl_events_records (u : String) (es : List Event) (acc : List SRecord) :
    es.foldl (fun acc2 e => e.transactions.foldl
        (fun acc3 t => if t.isPaid && txnInvolves u t then acc3 ++ [txnRec t] else acc3) acc2) acc
      = acc ++ (((es.map (fun e => e.transactions)).flatten.filter
          (fun t => t.isPaid && txnInvolves u t)).map txnRec) := by
  induction es generalizing acc with
  | nil => simp
  | cons e es ih =>
    rw [List.foldl_cons, foldl_push_filter, ih]
    simp [List.filter_append, List.append_assoc]

theorem foldl_groups_records (u : String) (gs : List Group) (acc : List SRecord) :
    gs.foldl (fun acc g => g.events.foldl (fun acc2 e => e.transactions.foldl
        (fun acc3 t => if t.isPaid && txnInvolves u t then acc3 ++ [txnRec t] else acc3) acc2) acc)
        acc
      = acc ++ (((gs.map groupTxns).flatten.filter
          (fun t => t.isPaid && txnInvolves u t)).map txnRec) := by
  induction gs generalizing acc with
  | nil => simp
  | cons g gs ih =>
    rw [List.foldl_cons, foldl_events_records, ih]
    simp [groupTxns, List.filter_append, List.append_assoc]

/-- Dropping the groups the Mongo `$elemMatch` pre-filter excludes does not
change the produced records: excluded groups contribute none. -/
theorem filter_groups_no_records (u : String) (gs : List Group) :
    (((gs.filter (fun g => g.events.any (fun e =>
        e.transactions.any (fun t => txnInvolves u t && t.isPaid)))).map groupTxns).flatten.filter
      (fun t => t.isPaid && txnInvolves u t)).map txnRec
    = ((gs.map groupTxns).flatten.filter (fun t => t.isPaid && txnInvolves u t)).map txnRec := by
  induction gs with
  | nil => rfl
  | cons g gs ih =>
    rw [List.filter_cons]
    by_cases hq : g.events.any (fun e =>
        e.transactions.any (fun t => txnInvolves u t && t.isPaid))
    · rw [if_pos hq]
      simp only [List.map_cons, List.flatten_cons, List.filter_append, List.map_append]
      rw [ih]
    · rw [if_neg hq]
      have hnone : (groupTxns g).filter (fun t => t.isPaid && txnInvolves u t) = [] := by
        rw [List.filter_eq_nil_iff]
        intro t ht
        obtain ⟨l, hl, htl⟩ := List.mem_flatten.mp ht
        obtain ⟨e, he, rfl⟩ := List.mem_map.mp hl
        intro hcontra
        apply hq
        rw [List.any_eq_true]
        refine ⟨e, he, ?_⟩
        rw [List.any_eq_true]
        refine ⟨t, htl, ?_⟩
        rw [Bool.and_comm]
        exact hcontra
      rw [List.map_cons, List.flatten_cons, List.filter_append, hnone, List.nil_append]
      exact ih

/-- C7 (amended): the settlement-history endpoint returns exactly the
projections of the paid transactions involving the user, in storage order —
groups in collection order, events and transactions in stored order — with no
sorting by timestamp. -/
theorem c7_getTransactions_eq (s : State) (u : String) :
    getTransactions s u =
      ((allTxns s).filter (fun t => t.isPaid && txnInvolves u t)).map txnRec := by
  have h1 : getTransactions s u
      = (s.groups.filter (fun g => g.events.any (fun e =>
          e.transactions.any (fun t => txnInvolves u t && t.isPaid)))).foldl
        (fun acc g => g.events.foldl (fun acc2 e => e.transactions.foldl
          (fun acc3 t => if t.isPaid && txnInvolves u t then acc3 ++ [txnRec t] else acc3) acc2)
          acc)
        [] := rfl
  rw [h1, foldl_groups_records, List.nil_append, filter_groups_no_records, allTxns_eq]

/-- C7 counterexample: a store holding two paid transactions of the user in
ascending timestamp order is returned as-is — the result is not ordered by
settlement timestamp descending. -/
theorem c7_counterexample :
    (getTransactions demoHistoryState "alice").map SRecord.paymentTimestamp
      = ["2025-01-02T00:00:00.000Z", "2025-03-01T00:00:00.000Z"] ∧
    ¬ (getTransactions demoHistoryState "alice").Pairwise
        (fun a b => b.paymentTimestamp ≤ a.paymentTimestamp) := by
  refine ⟨rfl, ?_⟩
  intro hpair
  have hlist : getTransactions demoHistoryState "alice"
      = [{ amount := 7, owedBy := "alice", owedTo := "bob", reason := "hotel",
           currency := "INR", paymentTimestamp := "2025-01-02T00:00:00.000Z" },
         { amount := 3, owedBy := "carol", owedTo := "alice", reason := "taxi",
           currency := "INR", paymentTimestamp := "2025-03-01T00:00:00.000Z" }] := rfl
  rw [hlist] at hpair
  obtain ⟨hrel, _⟩ := List.pairwise_cons.mp hpair
  have h1 := hrel _ (List.mem_singleton.mpr rfl)
  have hlt : ¬ (("2025-03-01T00:00:00.000Z" : String) ≤ "2025-01-02T00:00:00.000Z") := by
    rw [String.le_iff_toList_le]
    decide
  exact hlt h1

/-! ## Settling the same key twice -/

theorem append_cons_eq_singleton {α : Type} {a b : List α} {x y : α}
    (h : a ++ x :: b = [y]) : a = [] ∧ x = y ∧ b = [] := by
  cases a with
  | nil =>
    rw [List.nil_append, List.cons.injEq] at h
    exact ⟨rfl, h.1, h.2⟩
  | cons c cs =>
    rw [List.cons_append, List.cons.injEq] at h
    exact absurd h.2 (by simp)

theorem mem_nameTxns {g : Group} {en : String} {x : Txn} :
    x ∈ nameTxns g en ↔ ∃ e ∈ g.events, e.eventName = en ∧ x ∈ e.transactions := by
  rw [nameTxns]
  constructor
  · intro hx
    obtain ⟨l, hl, hxl⟩ := List.mem_flatten.mp hx
    obtain ⟨e, he, rfl⟩ := List.mem_map.mp hl
    obtain ⟨he2, hen⟩ := List.mem_filter.mp he
    exact ⟨e, he2, by simpa using hen, hxl⟩
  · rintro ⟨e, he, hen, hx⟩
    exact List.mem_flatten.mpr ⟨e.transactions,
      List.mem_map.mpr ⟨e, List.mem_filter.mpr ⟨he, by simpa using hen⟩, rfl⟩, hx⟩

theorem updateInEvents_ne_none {en : String} {p : Txn → Bool} {f : Txn → Txn}
    {es : List Event} {x : Txn}
    (hx : ∃ e ∈ es, e.eventName = en ∧ x ∈ e.transactions) (hpx : p x = true) :
    updateInEvents en p f es ≠ none := by
  intro hnone
  obtain ⟨e, he, hen, hxe⟩ := hx
  have hfalse := updateInEvents_none_iff.mp hnone e he hen x hxe
  rw [hpx] at hfalse
  cases hfalse

theorem nameTxns_update_decomp {g : Group} {en : String} {p : Txn → Bool} {f : Txn → Txn}
    {evs : List Event} {t0 : Txn}
    (hu : updateInEvents en p f g.events = some (evs, t0)) :
    ∃ A B, nameTxns g en = A ++ t0 :: B ∧
      nameTxns { g with events := evs } en = A ++ f t0 :: B ∧ p t0 = true := by
  obtain ⟨el1, e, el2, l1, l2, g1, g2, g3, g4, g5, _, _⟩ := updateInEvents_decomp hu
  have hen2 : (e.eventName == en) = true := by simpa using g2
  refine ⟨((el1.filter (fun e2 => e2.eventName == en)).map (fun e2 => e2.transactions)).flatten
            ++ l1,
          l2 ++ ((el2.filter (fun e2 => e2.eventName == en)).map
            (fun e2 => e2.transactions)).flatten,
          ?_, ?_, g5⟩
  · rw [nameTxns, g1, List.filter_append, List.filter_cons]
    simp [hen2, g3, List.append_assoc]
  · rw [nameTxns, g4, List.filter_append, List.filter_cons]
    simp [hen2, List.append_assoc]

/-- C5 (amended): AttachReceipt persists nothing: `receipt` is not a path of
the transactions sub-schema, so the handler's in-memory assignment is dropped
on save and a successful call leaves the whole store — transactions, paid
flags, users and debts — unchanged; it answers success exactly when some
transaction of the group matches `(eventName, timestamp, owedBy, owedTo)`,
paid or not, and NotFound when the group is absent or nothing matches. -/
theorem c5_attachReceipt_effect (s : State) (gid en ts ob ot path : String) :
    (∀ s2, uploadReceiptOnly s gid en ts ob ot path = .ok s2 → s2 = s) ∧
    (path ≠ "" → gid ≠ "" → en ≠ "" → ts ≠ "" → ob ≠ "" → ot ≠ "" →
      ∀ g, findGroup s.groups gid = some g →
        (uploadReceiptOnly s gid en ts ob ot path = .ok s ↔
          ∃ t ∈ nameTxns g en, receiptMatch ts ob ot t = true)) := by
  refine ⟨fun s2 h => uploadReceiptOnly_ok_state h, ?_⟩
  intro hpath hgid hen hts hob hot g hg
  have hnguard : ¬((path == "" || gid == "" || en == "" || ts == "" || ob == "" || ot == "")
      = true) := by
    simp [hpath, hgid, hen, hts, hob, hot]
  constructor
  · intro h
    obtain ⟨g2, evs, t0, hg2, hu, _, _⟩ := uploadReceiptOnly_ok_elim h
    rw [hg, Option.some_inj] at hg2
    subst hg2
    obtain ⟨el1, e, el2, l1, l2, g1, g2e, g3, _, g5, _, _⟩ := updateInEvents_decomp hu
    refine ⟨t0, mem_nameTxns.mpr ⟨e, ?_, g2e, ?_⟩, g5⟩
    · rw [g1]; simp
    · rw [g3]; simp
  · rintro ⟨t, htn, hrm⟩
    have hne2 : updateInEvents en (receiptMatch ts ob ot) (fun x => x) g.events ≠ none :=
      updateInEvents_ne_none (mem_nameTxns.mp htn) hrm
    rcases hres : updateInEvents en (receiptMatch ts ob ot) (fun x => x) g.events
      with _ | ⟨evs, t0⟩
    · exact absurd hres hne2
    have hok : uploadReceiptOnly s gid en ts ob ot path = .ok { s with groups := updateFirst (fun gr => gr.groupId == gid) (fun gr => { gr with events := evs }) s.groups } := by
      rw [uploadReceiptOnly, if_neg hnguard]
      split
      · next heq => rw [hg] at heq; cases heq
      · next g2 heq =>
        rw [hg, Option.some_inj] at heq
        subst heq
        split
        · next heq2 => rw [hres] at heq2; cases heq2
        · next evs2 t02 heq2 =>
          rw [hres, Option.some_inj] at heq2
          injection heq2 with h1 h2
          subst h1
          rfl
    rw [hok]
    rw [uploadReceiptOnly_ok_state hok]

/-- C5 witness: targeting the already-paid demo transaction, the call answers
success and the store is returned unchanged — nothing was persisted. -/
theorem c5_attachReceipt_effect_witness :
    uploadReceiptOnly demoPaidState "g1" "ev" "2025-01-02T00:00:00.000Z" "alice" "bob" "r.png"
      = .ok demoPaidState := by
  have h2 := (c5_attachReceipt_effect demoPaidState "g1" "ev" "2025-01-02T00:00:00.000Z"
      "alice" "bob" "r.png").2 (by decide) (by decide) (by decide) (by decide) (by decide)
      (by decide) demoPaidGroup rfl
  exact h2.mpr ⟨demoPaidTxn, by decide, by decide⟩

/-- C5 counterexample: the only transaction of the store is already paid, yet
AttachReceipt answers success — the claim demanded NotFound for a paid target —
and the resulting store is identical to the old one, so no receipt reference
was set anywhere either. -/
theorem c5_counterexample :
    allTxns demoPaidState = [demoPaidTxn] ∧ demoPaidTxn.isPaid = true ∧
    uploadReceiptOnly demoPaidState "g1" "ev" "2025-01-02T00:00:00.000Z" "alice" "bob" "rr.png"
      = .ok demoPaidState := by
  exact ⟨rfl, rfl, rfl⟩

/-- C3: when the submitted key resolves (within its group's matching events) to
exactly one transaction and that transaction is unpaid, MarkPaid succeeds,
decrements `debt[owedBy]` by exactly the amount, and the identical second call
answers NotFound while changing no state component. -/
theorem c3_markPaid_once {s : State} {gid en ts ob ot : String} {g : Group} {t : Txn}
    (hgid : gid ≠ "") (hen : en ≠ "") (hts : ts ≠ "") (hob : ob ≠ "") (hot : ot ≠ "")
    (hg : findGroup s.groups gid = some g)
    (hkey : keyTxns g en ts ob ot = [t])
    (hunpaid : t.isPaid = false) :
    ∃ s2, ∀ now1 now2 : String,
      markTransactionPaid s gid en ts ob ot now1 = .ok s2 ∧
      markTransactionPaid s2 gid en ts ob ot now2 = .error .notFound ∧
      getDebt s2 ob = (getDebt s ob).map (· - t.amount) ∧
      applyOp s2 (Op.markTransactionPaid gid en ts ob ot now2) = s2 := by
  have hguard : (gid == "" || en == "" || ts == "" || ob == "" || ot == "") = false := by
    simp [hgid, hen, hts, hob, hot]
  have hnguard : ¬((gid == "" || en == "" || ts == "" || ob == "" || ot == "") = true) := by
    simp [hguard]
  have htmem : t ∈ keyTxns g en ts ob ot := by rw [hkey]; simp
  obtain ⟨htn, hrm⟩ := List.mem_filter.mp htmem
  have hpm : paidMatch ts ob ot t = true := by
    rw [show paidMatch ts ob ot t = (receiptMatch ts ob ot t && !t.isPaid) from rfl, hrm, hunpaid]
    rfl
  have hne2 : updateInEvents en (paidMatch ts ob ot) (fun x => { x with isPaid := true })
      g.events ≠ none :=
    updateInEvents_ne_none (mem_nameTxns.mp htn) hpm
  rcases hres : updateInEvents en (paidMatch ts ob ot) (fun x => { x with isPaid := true })
      g.events with _ | ⟨evs, t0⟩
  · exact absurd hres hne2
  obtain ⟨A, B, hA, hB, hpm0⟩ := nameTxns_update_decomp hres
  have hrm0 : receiptMatch ts ob ot t0 = true := by
    have h2 := hpm0
    rw [show paidMatch ts ob ot t0 = (receiptMatch ts ob ot t0 && !t0.isPaid) from rfl] at h2
    simp only [Bool.and_eq_true] at h2
    exact h2.1
  have hkey2 : (A.filter (receiptMatch ts ob ot)) ++ t0 :: (B.filter (receiptMatch ts ob ot))
      = [t] := by
    rw [keyTxns, hA, List.filter_append, List.filter_cons] at hkey
    rw [if_pos hrm0] at hkey
    exact hkey
  obtain ⟨hAnil, ht0t, hBnil⟩ := append_cons_eq_singleton hkey2
  subst ht0t
  obtain ⟨gl1, gl2, d1, d2, d3, d4⟩ := updateFirst_decomp (fun gr => { gr with events := evs }) hg
  -- the post state of the first call
  refine ⟨{ users := incDebt s.users ob (-t0.amount),
            groups := gl1 ++ { g with events := evs } :: gl2 }, ?_⟩
  intro now1 now2
  have hfind2 : findGroup (gl1 ++ { g with events := evs } :: gl2) gid
      = some { g with events := evs } := by
    rw [findGroup]
    exact find?_eq_append _ gl1 gl2 _ d2 d3
  have hnone2 : updateInEvents en (paidMatch ts ob ot) (fun x => { x with isPaid := true })
      ({ g with events := evs } : Group).events = none := by
    rw [updateInEvents_none_iff]
    intro e he hen2 x hx
    have hxn : x ∈ nameTxns { g with events := evs } en := mem_nameTxns.mpr ⟨e, he, hen2, hx⟩
    rw [hB] at hxn
    by_cases hrmx : receiptMatch ts ob ot x
    · have hxf : x ∈ (A.filter (receiptMatch ts ob ot)) ++
          ({ t0 with isPaid := true } :: (B.filter (receiptMatch ts ob ot))) := by
        rcases List.mem_append.mp hxn with hxa | hxb
        · exact List.mem_append.mpr (.inl (List.mem_filter.mpr ⟨hxa, hrmx⟩))
        · rcases List.mem_cons.mp hxb with rfl | hxb2
          · exact List.mem_append.mpr (.inr (by simp))
          · exact List.mem_append.mpr
              (.inr (List.mem_cons_of_mem _ (List.mem_filter.mpr ⟨hxb2, hrmx⟩)))
      rw [hAnil, hBnil] at hxf
      simp only [List.filter_nil, List.nil_append, List.mem_singleton] at hxf
      subst hxf
      simp [paidMatch]
    · rw [show paidMatch ts ob ot x = (receiptMatch ts ob ot x && !x.isPaid) from rfl]
      have hrmx2 : receiptMatch ts ob ot x = false := by simpa using hrmx
      rw [hrmx2]
      rfl
  have hsecond : markTransactionPaid
      { users := incDebt s.users ob (-t0.amount),
        groups := gl1 ++ { g with events := evs } :: gl2 } gid en ts ob ot now2
      = .error .notFound := by
    rw [markTransactionPaid, if_neg hnguard]
    split
    · rfl
    · next g2 heq =>
      have heq2 : findGroup (gl1 ++ { g with events := evs } :: gl2) gid = some g2 := heq
      rw [hfind2, Option.some_inj] at heq2
      subst heq2
      split
      · rfl
      · next evs2 t02 heq3 => rw [hnone2] at heq3; cases heq3
  refine ⟨?_, hsecond, ?_, ?_⟩
  · -- first call succeeds
    rw [markTransactionPaid, if_neg hnguard]
    split
    · next heq => rw [hg] at heq; cases heq
    · next g2 heq =>
      rw [hg, Option.some_inj] at heq
      subst heq
      split
      · next heq2 => rw [hres] at heq2; cases heq2
      · next evs2 t02 heq2 =>
        rw [hres, Option.some_inj] at heq2
        cases heq2
        rw [d4]
  · -- the debt is decremented exactly once
    have hpr : getDebt
        { users := incDebt s.users ob (-t0.amount),
          groups := gl1 ++ { g with events := evs } :: gl2 } ob
        = findDebt (incDebt s.users ob (-t0.amount)) ob := rfl
    rw [hpr, getDebt, findDebt_incDebt, if_pos rfl]
    cases findDebt s.users ob <;> simp [Int.sub_eq_add_neg]
  · -- a NotFound response leaves the store untouched
    rw [applyOp, runOp, hsecond]

/-- C3 witness: settling the demo transaction twice — the first call succeeds,
the second answers NotFound. -/
theorem c3_markPaid_once_witness :
    markTransactionPaid demoState "g1" "ev" "2025-01-01T00:00:00.000Z" "alice" "bob" "TX"
      = .ok (applyOp demoState (Op.markTransactionPaid "g1" "ev" "2025-01-01T00:00:00.000Z"
          "alice" "bob" "TX")) ∧
    markTransactionPaid (applyOp demoState (Op.markTransactionPaid "g1" "ev"
        "2025-01-01T00:00:00.000Z" "alice" "bob" "TX")) "g1" "ev" "2025-01-01T00:00:00.000Z"
      "alice" "bob" "TY" = .error .notFound := by
  obtain ⟨s2, hs⟩ := @c3_markPaid_once demoState "g1" "ev" "2025-01-01T00:00:00.000Z"
    "alice" "bob" demoGroup demoTxn (by decide) (by decide) (by decide) (by decide) (by decide)
    rfl rfl rfl
  obtain ⟨h1, h2, _, _⟩ := hs "TX" "TY"
  have ha : applyOp demoState (Op.markTransactionPaid "g1" "ev" "2025-01-01T00:00:00.000Z"
      "alice" "bob" "TX") = s2 := by
    rw [applyOp, runOp, h1]
  rw [ha]
  exact ⟨h1, h2⟩

/-! ## Paid is terminal -/

theorem bind3_elim {gs : List Group} {gi ei ti : Nat} {t : Txn}
    (h : (gs[gi]?.bind (fun g2 => g2.events[ei]?.bind (fun e => e.transactions[ti]?)))
      = some t) :
    ∃ g0 e0, gs[gi]? = some g0 ∧ g0.events[ei]? = some e0 ∧ e0.transactions[ti]? = some t := by
  obtain ⟨g0, hg0, h2⟩ := Option.bind_eq_some.mp h
  obtain ⟨e0, he0, h3⟩ := Option.bind_eq_some.mp h2
  exact ⟨g0, e0, hg0, he0, h3⟩

theorem bind3_mk {gs : List Group} {gi ei ti : Nat} {g0 : Group} {e0 : Event} {t : Txn}
    (hg : gs[gi]? = some g0) (he : g0.events[ei]? = some e0)
    (ht : e0.transactions[ti]? = some t) :
    (gs[gi]?.bind (fun g2 => g2.events[ei]?.bind (fun e => e.transactions[ti]?))) = some t := by
  rw [hg]
  show g0.events[ei]?.bind (fun e => e.transactions[ti]?) = some t
  rw [he]
  exact ht

/-- The settlement handlers (receipt upload and mark-paid) never turn a paid
transaction unpaid at any position, provided the rewriting function preserves
a set paid flag. -/
theorem txnAt_update_events {gs : List Group} {gid en : String}
    {p : Txn → Bool} {f : Txn → Txn} {g : Group} {evs : List Event} {t0 : Txn}
    (hg : findGroup gs gid = some g)
    (hu : updateInEvents en p f g.events = some (evs, t0))
    (hf : ∀ x : Txn, x.isPaid = true → (f x).isPaid = true)
    (gi ei ti : Nat) (t : Txn)
    (hfind : (gs[gi]?.bind (fun g2 => g2.events[ei]?.bind (fun e => e.transactions[ti]?)))
      = some t)
    (hpaid : t.isPaid = true) :
    ∃ t2, ((updateFirst (fun gr => gr.groupId == gid)
        (fun gr => { gr with events := evs }) gs)[gi]?.bind
      (fun g2 => g2.events[ei]?.bind (fun e => e.transactions[ti]?))) = some t2 ∧
      t2.isPaid = true := by
  obtain ⟨gl1, gl2, d1, d2, d3, d4⟩ := updateFirst_decomp (fun gr => { gr with events := evs }) hg
  obtain ⟨g0, e0, hg0, he0, ht0⟩ := bind3_elim hfind
  rw [d4]
  rw [d1] at hg0
  rcases getElem?_middle_cases gl1 gl2 g { g with events := evs } gi with hsame | ⟨hx, hy⟩
  · rw [← hsame]
    exact ⟨t, bind3_mk hg0 he0 ht0, hpaid⟩
  · rw [hx, Option.some_inj] at hg0
    subst hg0
    obtain ⟨el1, e, el2, l1, l2, g1, _, g3, g4, _, _, _⟩ := updateInEvents_decomp hu
    rw [g1] at he0
    rcases getElem?_middle_cases el1 el2 e { e with transactions := l1 ++ f t0 :: l2 } ei
      with hesame | ⟨hex, hey⟩
    · refine ⟨t, bind3_mk hy ?_ ht0, hpaid⟩
      show evs[ei]? = some e0
      rw [g4, ← hesame]
      exact he0
    · rw [hex, Option.some_inj] at he0
      subst he0
      rw [g3] at ht0
      rcases getElem?_middle_cases l1 l2 t0 (f t0) ti with htsame | ⟨htx, hty⟩
      · refine ⟨t, bind3_mk hy (show evs[ei]? = some _ from by rw [g4]; exact hey) ?_, hpaid⟩
        show (l1 ++ f t0 :: l2)[ti]? = some t
        rw [← htsame]
        exact ht0
      · rw [htx, Option.some_inj] at ht0
        subst ht0
        refine ⟨f t0, bind3_mk hy (show evs[ei]? = some _ from by rw [g4]; exact hey) ?_,
          hf t0 hpaid⟩
        show (l1 ++ f t0 :: l2)[ti]? = some (f t0)
        exact hty

/-- C8: the paid state of a transaction is terminal — no operation of the
modelled surface (group creation, event addition, receipt attachment, settling,
membership update) ever moves the transaction stored at any position from
`isPaid = true` back to `false`. -/
theorem c8_paid_terminal (s : State) (op : Op) (gi ei ti : Nat) (t : Txn)
    (hfind : txnAt s gi ei ti = some t) (hpaid : t.isPaid = true) :
    ∃ t2, txnAt (applyOp s op) gi ei ti = some t2 ∧ t2.isPaid = true := by
  rcases hrun : runOp s op with e | s2
  · rw [applyOp, hrun]
    exact ⟨t, hfind, hpaid⟩
  · rw [applyOp, hrun]
    rw [txnAt] at hfind
    obtain ⟨g0, e0, hg0, he0, ht0⟩ := bind3_elim hfind
    cases op with
    | createGroup newGid cb gn members events now =>
      obtain ⟨ms, evs, hm, he, _, _, hus, hgs⟩ := createGroup_ok_elim hrun
      rw [txnAt, hgs]
      have hlen : gi < s.groups.length := by
        have h2 := List.getElem?_eq_some.mp hg0
        exact h2.1
      rw [List.getElem?_append_left hlen]
      exact ⟨t, bind3_mk hg0 he0 ht0, hpaid⟩
    | addEvent gid ev now =>
      obtain ⟨g, hg, hus, hgs⟩ := addEvent_ok_elim hrun
      rw [txnAt, hgs]
      rcases updateFirst_getElem? (fun gr => gr.groupId == gid)
          (fun gr => { gr with events := gr.events ++
            [if ev.createdAt == "" then { ev with createdAt := now } else ev] }) s.groups gi
        with hsame | ⟨x, hx1, hx2⟩
      · rw [hsame]
        exact ⟨t, bind3_mk hg0 he0 ht0, hpaid⟩
      · rw [hg0, Option.some_inj] at hx1
        subst hx1
        have hlen2 : ei < g0.events.length := by
          have h2 := List.getElem?_eq_some.mp he0
          exact h2.1
        refine ⟨t, bind3_mk hx2 ?_ ht0, hpaid⟩
        show (g0.events ++ _)[ei]? = some e0
        rw [List.getElem?_append_left hlen2]
        exact he0
    | uploadReceiptOnly gid en ts ob ot path =>
      obtain ⟨g, evs, t1, hg, hu, hus, hgs⟩ := uploadReceiptOnly_ok_elim hrun
      rw [txnAt, hgs]
      exact txnAt_update_events hg hu (fun x hx => hx) gi ei ti t hfind hpaid
    | markTransactionPaid gid en ts ob ot now =>
      obtain ⟨g, evs, t1, hg, hu, hus, hgs⟩ := @markPaid_ok_elim s s2 gid en ts ob ot now hrun
      rw [txnAt, hgs]
      exact txnAt_update_events hg hu (fun x _ => rfl) gi ei ti t hfind hpaid
    | updateMembers gid members =>
      obtain ⟨ms, g, hm, hg, hus, hgs⟩ := updateMembers_ok_elim hrun
      rw [txnAt, hgs]
      rcases updateFirst_getElem? (fun gr => gr.groupId == gid)
          (fun gr => { gr with members := ms }) s.groups gi
        with hsame | ⟨x, hx1, hx2⟩
      · rw [hsame]
        exact ⟨t, bind3_mk hg0 he0 ht0, hpaid⟩
      · rw [hg0, Option.some_inj] at hx1
        subst hx1
        exact ⟨t, bind3_mk hx2 (show g0.events[ei]? = some e0 from he0) ht0, hpaid⟩

/-- C8 witness: the demo paid transaction stays paid across an operation — here
a receipt upload targeting it. -/
theorem c8_paid_terminal_witness :
    ∃ t2, txnAt (applyOp demoPaidState (Op.uploadReceiptOnly "g1" "ev"
        "2025-01-02T00:00:00.000Z" "alice" "bob" "r2.png")) 0 0 0 = some t2 ∧
      t2.isPaid = true :=
  c8_paid_terminal demoPaidState (Op.uploadReceiptOnly "g1" "ev" "2025-01-02T00:00:00.000Z"
    "alice" "bob" "r2.png") 0 0 0 demoPaidTxn rfl rfl

/-! ## The debt invariant I1 -/

theorem find?_userId_of_nodup {users : List User} (hnd : (users.map User.userId).Nodup)
    {u : User} (hu : u ∈ users) :
    users.find? (fun x => x.userId == u.userId) = some u := by
  induction users with
  | nil => cases hu
  | cons a as ih =>
    rcases List.mem_cons.mp hu with rfl | hu2
    · rw [List.find?_cons_of_pos _ (by simp)]
    · have hnd2 : (as.map User.userId).Nodup := (List.nodup_cons.mp (by simpa using hnd)).2
      have hnm : a.userId ∉ as.map User.userId := (List.nodup_cons.mp (by simpa using hnd)).1
      have hane : ¬(a.userId == u.userId) := by
        simp only [beq_iff_eq]
        intro hh
        exact hnm (hh ▸ List.mem_map_of_mem _ hu2)
      rw [List.find?_cons_of_neg (p := fun x : User => x.userId == u.userId) _ hane]
      exact ih hnd2 hu2

/-- One induction step of the invariant: if an operation shifts every stored
debt by `Δ` and the unpaid sums by the same `Δ`, the invariant carries over. -/
theorem debt_inv_step {s s2 : State} (hinv : DebtInv s) (Δ : String → Int)
    (hids : s2.users.map User.userId = s.users.map User.userId)
    (hfd : ∀ v, findDebt s2.users v = (findDebt s.users v).map (· + Δ v))
    (hsum : ∀ v, v ≠ "" → unpaidSum s2 v = unpaidSum s v + Δ v) :
    DebtInv s2 := by
  obtain ⟨hne, hnd, hdebt⟩ := hinv
  refine ⟨?_, by rw [hids]; exact hnd, ?_⟩
  · intro u hu
    have hmm : u.userId ∈ s.users.map User.userId := by
      rw [← hids]
      exact List.mem_map_of_mem _ hu
    obtain ⟨u1, hu1, he⟩ := List.mem_map.mp hmm
    rw [← he]
    exact hne u1 hu1
  · intro u2 hu2
    have hnd2 : (s2.users.map User.userId).Nodup := by rw [hids]; exact hnd
    have hf2 : findDebt s2.users u2.userId = some u2.debt := by
      rw [findDebt, find?_userId_of_nodup hnd2 hu2]
      rfl
    rw [hfd u2.userId] at hf2
    obtain ⟨d1, hd1, hde⟩ := Option.map_eq_some'.mp hf2
    rw [findDebt] at hd1
    obtain ⟨u1, hfu1, hu1d⟩ := Option.map_eq_some'.mp hd1
    have hmem := List.mem_of_find?_eq_some hfu1
    have hid1 : u1.userId = u2.userId := by
      have h3 := List.find?_some hfu1
      simpa using h3
    have hvne : u2.userId ≠ "" := hid1 ▸ hne u1 hmem
    rw [hsum _ hvne]
    have hd := hdebt u1 hmem
    rw [hid1] at hd
    rw [← hde, ← hu1d, hd]

theorem eventsAccrualSum_eq_flatten (v : String) (evs : List Event) :
    eventsAccrualSum v evs = accrualSum v ((evs.map (fun e => e.transactions)).flatten) := by
  induction evs with
  | nil => rfl
  | cons e es ih =>
    rw [show eventsAccrualSum v (e :: es) = accrualSum v e.transactions + eventsAccrualSum v es
      from by simp [eventsAccrualSum]]
    rw [List.map_cons, List.flatten_cons, accrualSum_append, ih]

theorem debtInv_init {ids : List String} (hne : ∀ i ∈ ids, i ≠ "") (hnd : ids.Nodup) :
    DebtInv (initState ids) := by
  refine ⟨?_, ?_, ?_⟩
  · intro u hu
    obtain ⟨i, hi, rfl⟩ := List.mem_map.mp hu
    exact hne i hi
  · rw [initState]
    simp only [List.map_map]
    rw [show ((fun u : User => u.userId) ∘ fun i : String =>
      ({ userId := i, debt := 0, groups := [] } : User)) = id from rfl]
    rw [List.map_id]
    exact hnd
  · intro u hu
    obtain ⟨i, hi, rfl⟩ := List.mem_map.mp hu
    rfl

/-- Every operation whose submitted transactions are unpaid preserves the debt
invariant. -/
theorem debtInv_preserved {s : State} {op : Op} (hinv : DebtInv s) (hop : submitsUnpaid op) :
    DebtInv (applyOp s op) := by
  rcases hrun : runOp s op with e | s2
  · rw [applyOp, hrun]
    exact hinv
  · rw [applyOp, hrun]
    cases op with
    | createGroup newGid cb gn members events now =>
      obtain ⟨ms, evs, hm, hev, _, _, hus, hgs⟩ := createGroup_ok_elim hrun
      have hop2 : ∀ t ∈ ((evs.map (fun e => e.transactions)).flatten), t.isPaid = false := by
        simp only [submitsUnpaid] at hop
        intro t ht
        obtain ⟨l, hl, htl⟩ := List.mem_flatten.mp ht
        obtain ⟨e2, he2, rfl⟩ := List.mem_map.mp hl
        exact hop e2 (by rw [hev]; exact he2) t htl
      have hrun2 : createGroup s newGid cb gn (some ms) (some evs) now = .ok s2 := by
        rw [← hm, ← hev]
        exact hrun
      refine debt_inv_step hinv (fun v => eventsAccrualSum v evs) ?_ ?_ ?_
      · rw [hus, map_userId_accrueEvents, map_userId_pushGroupId]
      · intro v
        rw [hus, findDebt_accrueEvents, findDebt_pushGroupId]
      · intro v hv
        show unpaidSum s2 v = unpaidSum s v + eventsAccrualSum v evs
        have htx := (createGroup_effect hrun2).2
        rw [unpaidSum, unpaidSum, htx, unpaidSumTxns_append]
        rw [eventsAccrualSum_eq_flatten]
        rw [accrualSum_eq_unpaidSumTxns hv hop2]
    | addEvent gid ev now =>
      obtain ⟨g, hg, hus, hgs⟩ := addEvent_ok_elim hrun
      have hop2 : ∀ t ∈ ev.transactions, t.isPaid = false := by
        simpa only [submitsUnpaid] using hop
      refine debt_inv_step hinv (fun v => accrualSum v ev.transactions) ?_ ?_ ?_
      · rw [hus, map_userId_accrueTxns]
      · intro v
        rw [hus, findDebt_accrueTxns]
      · intro v hv
        show unpaidSum s2 v = unpaidSum s v + accrualSum v ev.transactions
        obtain ⟨L1, L2, b1, b2⟩ := (addEvent_effect hrun).2
        rw [unpaidSum, unpaidSum, b1, b2, unpaidSumTxns_append, unpaidSumTxns_append,
          unpaidSumTxns_append]
        rw [accrualSum_eq_unpaidSumTxns hv hop2]
        omega
    | uploadReceiptOnly gid en ts ob ot path =>
      have hstate : s2 = s := uploadReceiptOnly_ok_state hrun
      refine debt_inv_step hinv (fun _ => 0) ?_ ?_ ?_
      · rw [hstate]
      · intro v
        show findDebt s2.users v = (findDebt s.users v).map (· + 0)
        rw [hstate]
        cases findDebt s.users v <;> simp
      · intro v hv
        show unpaidSum s2 v = unpaidSum s v + 0
        rw [hstate]
        omega
    | markTransactionPaid gid en ts ob ot now =>
      obtain ⟨L1, t1, L2, b1, b2, b3, busers⟩ :=
        @markPaid_txns_decomp s s2 gid en ts ob ot now hrun
      obtain ⟨m1, m2, m3, m4⟩ := paidMatch_elim b3
      refine debt_inv_step hinv (fun v => if v = ob then -t1.amount else 0) ?_ ?_ ?_
      · rw [busers, map_userId_incDebt]
      · intro v
        show findDebt s2.users v
            = (findDebt s.users v).map (· + (if v = ob then -t1.amount else 0))
        rw [busers, findDebt_incDebt]
        by_cases hv : v = ob
        · rw [if_pos hv, if_pos hv]
        · rw [if_neg hv, if_neg hv]
          cases findDebt s.users v <;> simp
      · intro v hv
        show unpaidSum s2 v = unpaidSum s v + (if v = ob then -t1.amount else 0)
        rw [unpaidSum, unpaidSum, b1, b2, unpaidSumTxns_append, unpaidSumTxns_append,
          unpaidSumTxns_cons, unpaidSumTxns_cons]
        have hpnew : (if (({ t1 with isPaid := true } : Txn).owedBy == v
            && !({ t1 with isPaid := true } : Txn).isPaid)
            then ({ t1 with isPaid := true } : Txn).amount else 0) = (0 : Int) := by
          simp
        rw [hpnew]
        by_cases hvob : v = ob
        · have hpold : (if (t1.owedBy == v && !t1.isPaid) then t1.amount else 0)
              = t1.amount := by
            simp [m2, m4, hvob]
          rw [hpold, if_pos hvob]
          omega
        · have hpold : (if (t1.owedBy == v && !t1.isPaid) then t1.amount else 0) = (0 : Int) := by
            have hne2 : (t1.owedBy == v) = false := by
              simp only [beq_eq_false_iff_ne, ne_eq, m2]
              exact fun hh => hvob hh.symm
            rw [hne2]
            rfl
          rw [hpold, if_neg hvob]
          omega
    | updateMembers gid members =>
      obtain ⟨ms, g, hm, hg, hus, hgs⟩ := updateMembers_ok_elim hrun
      have htx : allTxns s2 = allTxns s := by
        rw [allTxns_eq, allTxns_eq, hgs]
        rw [updateFirst_map_eq (f := fun gr => { gr with members := ms }) (g := groupTxns)
          (fun _ => rfl) s.groups]
      refine debt_inv_step hinv (fun _ => 0) ?_ ?_ ?_
      · rw [hus]
      · intro v
        show findDebt s2.users v = (findDebt s.users v).map (· + 0)
        rw [hus]
        cases findDebt s.users v <;> simp
      · intro v hv
        show unpaidSum s2 v = unpaidSum s v + 0
        rw [unpaidSum, unpaidSum, htx]
        omega

/-- C1 (amended): starting from signup-created users (non-empty, distinct ids,
zero debt) and applying any sequence of CreateGroup, AddEvent, AttachReceipt,
MarkPaid and UpdateMembers calls in which every submitted transaction carries
`isPaid = false` (as the shipped client always submits), every user's stored
`debt` equals the sum of the amounts of their unpaid transactions at every
quiescent point. -/
theorem c1_debt_invariant (ids : List String) (ops : List Op)
    (hne : ∀ i ∈ ids, i ≠ "") (hnd : ids.Nodup)
    (hops : ∀ op ∈ ops, submitsUnpaid op) :
    ∀ u ∈ (applyOps (initState ids) ops).users,
      u.debt = unpaidSum (applyOps (initState ids) ops) u.userId := by
  suffices h : ∀ (l : List Op) (st : State), DebtInv st → (∀ op ∈ l, submitsUnpaid op) →
      DebtInv (applyOps st l) by
    exact (h ops (initState ids) (debtInv_init hne hnd) hops).2.2
  intro l
  induction l with
  | nil => intro st h2 _; exact h2
  | cons op l2 ih =>
    intro st h2 hall
    rw [applyOps, List.foldl_cons]
    exact ih (applyOp st op) (debtInv_preserved h2 (hall op (by simp)))
      (fun x hx => hall x (by simp [hx]))

/-- C1 witness: one unpaid 5-unit transaction leaves `debt[alice] = 5`, equal
to the unpaid sum. -/
theorem c1_debt_invariant_witness :
    getDebt (applyOps (initState ["alice"]) [Op.createGroup "g1" "bob" "trip" (some ["alice"])
        (some [demoUnpaidEvent]) "T0"]) "alice"
      = some (unpaidSum (applyOps (initState ["alice"]) [Op.createGroup "g1" "bob" "trip"
          (some ["alice"]) (some [demoUnpaidEvent]) "T0"]) "alice") := by
  have hops : ∀ op ∈ [Op.createGroup "g1" "bob" "trip" (some ["alice"])
      (some [demoUnpaidEvent]) "T0"], submitsUnpaid op := by
    intro op hop
    rw [List.mem_singleton] at hop
    subst hop
    show ∀ e ∈ [demoUnpaidEvent], ∀ t ∈ e.transactions, t.isPaid = false
    decide
  have h := c1_debt_invariant ["alice"] [Op.createGroup "g1" "bob" "trip" (some ["alice"])
      (some [demoUnpaidEvent]) "T0"] (by decide) (by decide) hops
  have h2 := h { userId := "alice", debt := 5, groups := ["g1"] } (by decide)
  have h3 : getDebt (applyOps (initState ["alice"]) [Op.createGroup "g1" "bob" "trip"
      (some ["alice"]) (some [demoUnpaidEvent]) "T0"]) "alice"
      = some (({ userId := "alice", debt := 5, groups := ["g1"] } : User).debt) := rfl
  rw [h3, h2]

/-- C1 counterexample: the handlers accept a transaction submitted with
`isPaid = true`; it accrues debt but is excluded from the unpaid sum, so the
claimed invariant fails on a state reachable by the raw operations. -/
theorem c1_counterexample :
    getDebt (applyOps (initState ["alice"]) [Op.createGroup "g1" "bob" "trip" (some ["alice"])
        (some [demoPrepaidEvent]) "T0"]) "alice" = some 5 ∧
    unpaidSum (applyOps (initState ["alice"]) [Op.createGroup "g1" "bob" "trip" (some ["alice"])
        (some [demoPrepaidEvent]) "T0"]) "alice" = 0 :=
  ⟨rfl, rfl⟩

end GroupExpense

